import Mathlib

/-!
OF NUMA parsing (`drivers/of/of_numa.c`).

A shallow embedding of the five functions of `drivers/of/of_numa.c` and the
properties of them that the topology specification states.

The description tree, the node mask, the distance table and the memory-range
registry live outside this file of the kernel; they enter the embedding as
data (`device_node`, `TopologyState`) and as parameters (`MAX_NUMNODES`,
`LOCAL_DISTANCE`, `node_possible`, `memblk_rc`).
-/

namespace OfNuma

/-! ## Error codes -/

/-- The errno value `EINVAL`. -/
def EINVAL : Int := 22

/-- The errno value `ENODATA`. -/
def ENODATA : Int := 61

/-- The errno value `EOVERFLOW`. -/
def EOVERFLOW : Int := 75

/-- The sentinel `NUMA_NO_NODE`. -/
def NUMA_NO_NODE : Int := -1

/-- Two to the power 64: physical addresses (`resource_size_t`, `u64`) wrap here. -/
def U64_MOD : Nat := 18446744073709551616

/-! ## The description tree -/

/-- The ways a u32 property read fails on a property that is present. -/
inductive PropError
  | NoData
  | Overflow
  deriving DecidableEq, Repr

/-- The three outcomes of reading the "numa-node-id" property of one node. -/
inductive PropRead
  | Value (v : Nat)
  | Absent
  | Malformed (e : PropError)
  deriving DecidableEq, Repr

/-- The properties of one tree node that this file of the kernel reads:
the "numa-node-id" property, the address ranges as `(start, length)` pairs of
u64 values in declaration order, and the "distance-matrix" property as its
sequence of u32 cells (`none` when the node has no such property). -/
structure node_props where
  numa_node_id : PropRead
  reg : List (Nat × Nat)
  distance_matrix : Option (List Nat)
  deriving DecidableEq, Repr

/-- A tree node together with its chain of ancestors. -/
inductive device_node
  | root (props : node_props)
  | child (props : node_props) (parent : device_node)
  deriving DecidableEq, Repr

/-- The properties of a node. -/
def device_node.props : device_node → node_props
  | .root p => p
  | .child p _ => p

/-- The parent of a node, `none` (NULL) at the root. -/
def of_get_next_parent : device_node → Option device_node
  | .root _ => none
  | .child _ parent => some parent

/-- The parts of the tree the three passes enumerate: the processor nodes in
the order of `for_each_of_cpu_node`, the nodes of type "memory" in the order of
`for_each_node_by_type`, and the node that `of_find_compatible_node` returns
for "numa-distance-map-v1" (`none` when there is none). -/
structure device_tree where
  cpu_nodes : List device_node
  memory_nodes : List device_node
  distance_map : Option device_node
  deriving Repr

/-- Modelled from the spec: of_property_read_u32 on "numa-node-id", which is
not in this file of the kernel. It returns the code `r` and the content of
`nid` after the call: 0 and the value read on success; `-EINVAL` when the
property is absent; another negative code when it is present but malformed.
On failure `nid` keeps the value it had. -/
def of_property_read_u32 (np : device_node) (nid : Nat) : Int × Nat :=
  match np.props.numa_node_id with
  | .Value v => (0, v)
  | .Absent => (-EINVAL, nid)
  | .Malformed .NoData => (-ENODATA, nid)
  | .Malformed .Overflow => (-EOVERFLOW, nid)

/-- Modelled from the spec: of_get_property on "distance-matrix", the
property value as a sequence of unsigned 32-bit cells, `none` for NULL. -/
def of_get_property (map : device_node) : Option (List Nat) :=
  map.props.distance_matrix

/-- Modelled from the spec: of_property_count_u32_elems on "distance-matrix",
the number of u32 cells of the property, `-EINVAL` when it is absent. -/
def of_property_count_u32_elems (map : device_node) : Int :=
  match map.props.distance_matrix with
  | some cells => (cells.length : Int)
  | none => -EINVAL

/-- A `struct resource`: first and last address of a range, both inclusive. -/
structure resource where
  start : Nat
  end_ : Nat
  deriving DecidableEq, Repr

/-- Modelled from the spec: of_address_to_resource, which is not in this file
of the kernel. Entry `index` of the node's address ranges as a resource, `none`
(a nonzero return) when the node has no entry of that index. The spec gives an
entry as `(start, length)` and the committed end as `start + length`; the
resource holds the last address `start + length - 1`, in u64 arithmetic. -/
def of_address_to_resource (np : device_node) (index : Nat) : Option resource :=
  (np.props.reg.get? index).map
    (fun e => { start := e.1, end_ := (e.1 + e.2 + U64_MOD - 1) % U64_MOD })

/-- The resources of all address ranges of a node, in declaration order:
`of_address_to_resource np 0`, `of_address_to_resource np 1`, ... up to the
first index that fails. -/
def resources (np : device_node) : List resource :=
  np.props.reg.map
    (fun e => { start := e.1, end_ := (e.1 + e.2 + U64_MOD - 1) % U64_MOD })

/-! ## The topology state -/

/-- One entry of the memory-range registry. -/
structure MemoryRange where
  node : Nat
  start : Nat
  end_exclusive : Nat
  deriving DecidableEq, Repr

/-- The state the passes write: the node mask `numa_nodes_parsed`, the
distance table (sparse: `none` where nothing was recorded), the ranges
committed to the memory-range registry in commit order, and the arguments of
every call of `numa_add_memblk` in call order. -/
structure TopologyState where
  numa_nodes_parsed : Finset Nat
  numa_distance : Nat → Nat → Option Nat
  memblks : List MemoryRange
  memblk_calls : List MemoryRange

/-- The state before any pass has run. -/
def TopologyState.empty : TopologyState :=
  { numa_nodes_parsed := ∅
    numa_distance := fun _ _ => none
    memblks := []
    memblk_calls := [] }

/-- Modelled from the spec: node_set on `numa_nodes_parsed`, insertion of an id
into the DiscoveredNodeSet. -/
def node_set (nid : Nat) (s : TopologyState) : TopologyState :=
  { s with numa_nodes_parsed := insert nid s.numa_nodes_parsed }

/-- Modelled from the spec: numa_set_distance, which is not in this file of the
kernel: record `distance(from, to) = distance`. -/
def numa_set_distance (src dst distance : Nat) (s : TopologyState) : TopologyState :=
  { s with numa_distance := fun a b =>
      if a = src ∧ b = dst then some distance else s.numa_distance a b }

/-- Modelled from the spec: numa_add_memblk, the commit of one range to the
external memory-range registry. The registry decides the return code
(`memblk_rc`, given the ranges committed so far and the new range); a range
is appended when the code is 0, and a failing commit leaves the registry as it
was. Every call is logged in `memblk_calls`. -/
def numa_add_memblk (memblk_rc : List MemoryRange → MemoryRange → Int)
    (nid start end_exclusive : Nat) (s : TopologyState) : Int × TopologyState :=
  let rng : MemoryRange := { node := nid, start := start, end_exclusive := end_exclusive }
  let r := memblk_rc s.memblks rng
  if r = 0 then
    (0, { s with memblks := s.memblks ++ [rng], memblk_calls := s.memblk_calls ++ [rng] })
  else
    (r, { s with memblk_calls := s.memblk_calls ++ [rng] })

/-! ## `of_numa_parse_cpu_nodes` -/

/-- The body of `for_each_of_cpu_node` in `of_numa_parse_cpu_nodes`, run over
the processor nodes in order; `nid` is the local variable of that name. -/
def cpu_nodes_loop (MAX_NUMNODES : Nat) : List device_node → Nat → TopologyState → TopologyState
  | [], _, s => s
  | np :: rest, nid, s =>
    let (r, nid) := of_property_read_u32 np nid
    if r ≠ 0 then
      cpu_nodes_loop MAX_NUMNODES rest nid s
    else if nid ≥ MAX_NUMNODES then
      cpu_nodes_loop MAX_NUMNODES rest nid s
    else
      cpu_nodes_loop MAX_NUMNODES rest nid (node_set nid s)

/-- The function `of_numa_parse_cpu_nodes`; `nid0` is the indeterminate initial
content of the local `nid`. -/
def of_numa_parse_cpu_nodes (MAX_NUMNODES : Nat) (nid0 : Nat) (cpus : List device_node)
    (s : TopologyState) : TopologyState :=
  cpu_nodes_loop MAX_NUMNODES cpus nid0 s

/-! ## `of_numa_parse_memory_nodes` -/

/-- The inner loop of `of_numa_parse_memory_nodes`,
`for (i = 0; !r && !of_address_to_resource(np, i, &rsrc); i++)`, over the
resources of the node that remain from index `i` on. It returns the final
`i`, the final `r` and the state. -/
def add_memblk_loop (memblk_rc : List MemoryRange → MemoryRange → Int) (nid : Nat) :
    List resource → Nat → Int → TopologyState → Nat × Int × TopologyState
  | [], i, r, s => (i, r, s)
  | rsrc :: rest, i, r, s =>
    if r ≠ 0 then (i, r, s)
    else
      let (r, s) := numa_add_memblk memblk_rc nid rsrc.start ((rsrc.end_ + 1) % U64_MOD) s
      add_memblk_loop memblk_rc nid rest (i + 1) r s

/-- The body of `for_each_node_by_type(np, "memory")` in
`of_numa_parse_memory_nodes`, run over the memory nodes in order; `nid` is the
local variable of that name, which keeps its value from one node to the
next. -/
def memory_nodes_loop (memblk_rc : List MemoryRange → MemoryRange → Int) (MAX_NUMNODES : Nat) :
    List device_node → Nat → TopologyState → Int × TopologyState
  | [], _, s => (0, s)
  | np :: rest, nid, s =>
    let (r, nid) := of_property_read_u32 np nid
    if r = -EINVAL then
      memory_nodes_loop memblk_rc MAX_NUMNODES rest nid s
    else
      let r := if nid ≥ MAX_NUMNODES then -EINVAL else r
      let (i, r, s) := add_memblk_loop memblk_rc nid (resources np) 0 r s
      if i = 0 ∨ r ≠ 0 then
        (if r ≠ 0 then r else -EINVAL, s)
      else
        memory_nodes_loop memblk_rc MAX_NUMNODES rest nid s

/-- The function `of_numa_parse_memory_nodes`; `nid0` is the indeterminate
initial content of the local `nid`. -/
def of_numa_parse_memory_nodes (memblk_rc : List MemoryRange → MemoryRange → Int)
    (MAX_NUMNODES : Nat) (nid0 : Nat) (mems : List device_node) (s : TopologyState) :
    Int × TopologyState :=
  memory_nodes_loop memblk_rc MAX_NUMNODES mems nid0 s

/-! ## `of_numa_parse_distance_map_v1` -/

/-- The loop `for (i = 0; i + 2 < entry_count; i += 3)` of
`of_numa_parse_distance_map_v1` over the cells that `matrix` points at.
`entry_count` is the number of cells, so `i + 2 < entry_count` holds exactly
when three more cells remain; each `matrix++` drops one cell. -/
def distance_map_loop (LOCAL_DISTANCE : Nat) : List Nat → TopologyState → Int × TopologyState
  | nodea :: nodeb :: distance :: matrix, s =>
    if (nodea = nodeb ∧ distance ≠ LOCAL_DISTANCE) ∨
        (nodea ≠ nodeb ∧ distance ≤ LOCAL_DISTANCE) then
      (-EINVAL, s)
    else
      let s := node_set nodea s
      let s := numa_set_distance nodea nodeb distance s
      let s := if nodeb > nodea then numa_set_distance nodeb nodea distance s else s
      distance_map_loop LOCAL_DISTANCE matrix s
  | _, s => (0, s)

/-- The function `of_numa_parse_distance_map_v1`. -/
def of_numa_parse_distance_map_v1 (LOCAL_DISTANCE : Nat) (map : device_node)
    (s : TopologyState) : Int × TopologyState :=
  match of_get_property map with
  | none => (-EINVAL, s)
  | some matrix =>
    let entry_count := of_property_count_u32_elems map
    if entry_count ≤ 0 then (-EINVAL, s)
    else distance_map_loop LOCAL_DISTANCE matrix s

/-- The function `of_numa_parse_distance_map`. -/
def of_numa_parse_distance_map (LOCAL_DISTANCE : Nat) (tree : device_tree)
    (s : TopologyState) : Int × TopologyState :=
  match tree.distance_map with
  | some np => of_numa_parse_distance_map_v1 LOCAL_DISTANCE np s
  | none => (0, s)

/-! ## `of_node_to_nid` -/

/-- The loop `while (np)` of `of_node_to_nid`, started at a node that is not
NULL. It returns the final `r` and `nid`. -/
def of_node_to_nid_walk : device_node → Nat → Int × Nat
  | .root p, nid => of_property_read_u32 (.root p) nid
  | .child p parent, nid =>
    let (r, nid) := of_property_read_u32 (.child p parent) nid
    if r ≠ -EINVAL then (r, nid)
    else of_node_to_nid_walk parent nid

/-- The function `of_node_to_nid`; `device` may be NULL (`none`), `nid0` is the
indeterminate initial content of the local `nid`. -/
def of_node_to_nid (MAX_NUMNODES : Nat) (node_possible : Nat → Bool) (nid0 : Nat)
    (device : Option device_node) : Int :=
  let (r, nid) :=
    match device with
    | none => (-ENODATA, nid0)
    | some np => of_node_to_nid_walk np nid0
  if r = 0 ∧ nid < MAX_NUMNODES ∧ node_possible nid = true then (nid : Int)
  else NUMA_NO_NODE

/-! ## `of_numa_init` -/

/-- The function `of_numa_init`; `nid_cpu0` and `nid_mem0` are the indeterminate
initial contents of the local `nid` of the two scans. -/
def of_numa_init (memblk_rc : List MemoryRange → MemoryRange → Int)
    (MAX_NUMNODES LOCAL_DISTANCE : Nat) (nid_cpu0 nid_mem0 : Nat) (tree : device_tree)
    (s : TopologyState) : Int × TopologyState :=
  let s := of_numa_parse_cpu_nodes MAX_NUMNODES nid_cpu0 tree.cpu_nodes s
  let (r, s) := of_numa_parse_memory_nodes memblk_rc MAX_NUMNODES nid_mem0 tree.memory_nodes s
  if r ≠ 0 then (r, s)
  else of_numa_parse_distance_map LOCAL_DISTANCE tree s

/-! ## Reading the specification's words -/

/-- The triples `(node_a, node_b, distance)` that a sequence of cells encodes,
in encoding order; one or two cells left over at the end encode nothing. -/
def triples_of : List Nat → List (Nat × Nat × Nat)
  | a :: b :: d :: rest => (a, b, d) :: triples_of rest
  | _ => []

/-- The cells that encode a sequence of triples. -/
def encode_triples : List (Nat × Nat × Nat) → List Nat
  | [] => []
  | (a, b, d) :: rest => a :: b :: d :: encode_triples rest

/-- A triple that breaks the distance rule: a self-distance other than
`LOCAL_DISTANCE`, or a cross-node distance not greater than it. -/
def invalid_triple (LOCAL_DISTANCE : Nat) (t : Nat × Nat × Nat) : Prop :=
  (t.1 = t.2.1 ∧ t.2.2 ≠ LOCAL_DISTANCE) ∨ (t.1 ≠ t.2.1 ∧ t.2.2 ≤ LOCAL_DISTANCE)

instance (LOCAL_DISTANCE : Nat) (t : Nat × Nat × Nat) :
    Decidable (invalid_triple LOCAL_DISTANCE t) := by
  unfold invalid_triple; exact inferInstance

/-- A triple whose processing writes the table entry `(x, y)`: it names
`(x, y)`, or it names `(y, x)` with `x > y` and is mirrored. -/
def writes_entry (x y : Nat) (t : Nat × Nat × Nat) : Prop :=
  (t.1 = x ∧ t.2.1 = y) ∨ (t.2.1 > t.1 ∧ t.2.1 = x ∧ t.1 = y)

instance (x y : Nat) (t : Nat × Nat × Nat) : Decidable (writes_entry x y t) := by
  unfold writes_entry; exact inferInstance

/-- The writes of one loop iteration on a triple that passes the check:
`node_set(nodea)`, `numa_set_distance(nodea, nodeb, distance)` and, when
`nodeb > nodea`, `numa_set_distance(nodeb, nodea, distance)`. -/
def commit_triple (t : Nat × Nat × Nat) (s : TopologyState) : TopologyState :=
  if t.2.1 > t.1 then
    numa_set_distance t.2.1 t.1 t.2.2 (numa_set_distance t.1 t.2.1 t.2.2 (node_set t.1 s))
  else numa_set_distance t.1 t.2.1 t.2.2 (node_set t.1 s)

/-- The ids that the processor nodes declare on their own "numa-node-id"
property, read successfully and below `MAX_NUMNODES`. -/
def cpu_declared_ids (MAX_NUMNODES : Nat) : List device_node → List Nat
  | [] => []
  | np :: rest =>
    match np.props.numa_node_id with
    | .Value v =>
      if v < MAX_NUMNODES then v :: cpu_declared_ids MAX_NUMNODES rest
      else cpu_declared_ids MAX_NUMNODES rest
    | _ => cpu_declared_ids MAX_NUMNODES rest

/-- The sum of two u64 values. -/
def u64_add (a b : Nat) : Nat := (a + b) % U64_MOD

/-- The triples `(node-id, start, start + length)` of one memory node, in
declaration order of its ranges; none for a node that declares no id. -/
def node_declared_ranges (np : device_node) : List MemoryRange :=
  match np.props.numa_node_id with
  | .Value v => np.props.reg.map
      (fun e => { node := v, start := e.1, end_exclusive := u64_add e.1 e.2 })
  | _ => []

/-- The triples `(node-id, start, start + length)` of the memory nodes, in tree
order of the nodes and declaration order of each node's ranges. -/
def declared_ranges : List device_node → List MemoryRange
  | [] => []
  | np :: rest => node_declared_ranges np ++ declared_ranges rest

/-- The state after the ranges `rs` were committed one by one, all with
return code 0. -/
def commit_all (rs : List MemoryRange) (s : TopologyState) : TopologyState :=
  { s with memblks := s.memblks ++ rs, memblk_calls := s.memblk_calls ++ rs }

/-- The chain of a node: the node itself, its parent, its grandparent, ... up
to the root. -/
def ancestor_chain : device_node → List node_props
  | .root p => [p]
  | .child p parent => p :: ancestor_chain parent

/-- The nearest node on the chain whose "numa-node-id" property is not absent,
`none` when no node on the chain has the property. -/
def nearest_declared (np : device_node) : Option node_props :=
  (ancestor_chain np).find? (fun p => decide (p.numa_node_id ≠ .Absent))

/-- The state after the loop iterations of a sequence of triples that all pass
the check, applied in encoding order. -/
def commit_triples : List (Nat × Nat × Nat) → TopologyState → TopologyState
  | [], s => s
  | t :: rest, s => commit_triples rest (commit_triple t s)

/-- The distance-matrix invariant: every recorded self-distance equals
`LOCAL_DISTANCE` and every recorded cross-node distance is greater than it. -/
def distance_invariant (LOCAL_DISTANCE : Nat) (s : TopologyState) : Prop :=
  ∀ a b d, s.numa_distance a b = some d →
    (a = b → d = LOCAL_DISTANCE) ∧ (a ≠ b → d > LOCAL_DISTANCE)

/-- The return codes of a sequence of commit attempts, made one after the other
on a registry that holds `reg` at the start: the registry answers each attempt
(`memblk_rc`) and grows by the range when the answer is 0. -/
def call_codes (memblk_rc : List MemoryRange → MemoryRange → Int) :
    List MemoryRange → List MemoryRange → List Int
  | _, [] => []
  | reg, c :: rest =>
    memblk_rc reg c ::
      call_codes memblk_rc (if memblk_rc reg c = 0 then reg ++ [c] else reg) rest

/-- The memory nodes that have a "numa-node-id" property (well-formed or not),
in tree order: the tree with the nodes without the property removed. -/
def declaring_nodes (mems : List device_node) : List device_node :=
  mems.filter (fun np => decide (np.props.numa_node_id ≠ .Absent))

/-- The tree of the end-to-end scenario: two processors with node-id 0 and 1,
one memory node with node-id 0 and the range of start 0x0 and length
0x40000000, and the distance map `<0 0 10> <0 1 20> <1 0 20> <1 1 10>`, all
below a root without properties. -/
def end_to_end_tree : device_tree :=
  { cpu_nodes :=
      [.child ⟨.Value 0, [], none⟩ (.root ⟨.Absent, [], none⟩),
       .child ⟨.Value 1, [], none⟩ (.root ⟨.Absent, [], none⟩)]
    memory_nodes :=
      [.child ⟨.Value 0, [(0, 1073741824)], none⟩ (.root ⟨.Absent, [], none⟩)]
    distance_map :=
      some (.child ⟨.Absent, [], some [0, 0, 10, 0, 1, 20, 1, 0, 20, 1, 1, 10]⟩
        (.root ⟨.Absent, [], none⟩)) }

/-- The commit attempts made between the state `s` and the later state `out`,
in call order. -/
def new_calls (s out : TopologyState) : List MemoryRange :=
  out.memblk_calls.drop s.memblk_calls.length

/-- Between `s` and `s1` some commits were attempted and the registry accepted
every one of them. -/
def commits_all_ok (memblk_rc : List MemoryRange → MemoryRange → Int)
    (s s1 : TopologyState) : Prop :=
  ∃ calls, s1.memblk_calls = s.memblk_calls ++ calls ∧ s1.memblks = s.memblks ++ calls ∧
    ∀ c ∈ call_codes memblk_rc s.memblks calls, c = 0

/-- Between `s` and `s1` the registry accepted the commits `ok` and then
answered the commit `bad` with the nonzero code `r`; nothing was attempted
after that. -/
def commits_fail_last (memblk_rc : List MemoryRange → MemoryRange → Int)
    (s : TopologyState) (r : Int) (s1 : TopologyState) : Prop :=
  ∃ ok bad, s1.memblk_calls = s.memblk_calls ++ (ok ++ [bad]) ∧
    s1.memblks = s.memblks ++ ok ∧
    (∀ c ∈ call_codes memblk_rc s.memblks ok, c = 0) ∧
    memblk_rc (s.memblks ++ ok) bad = r ∧ r ≠ 0

/-- A node that carries only a "distance-matrix" property with the given cells. -/
def distance_map_node (cells : List Nat) : device_node :=
  .root { numa_node_id := .Absent, reg := [], distance_matrix := some cells }

end OfNuma

namespace OfNuma

/-! ## Shared lemmas on the distance-map loop -/

/-- Induction over a list of cells three at a time. -/
theorem cells_induction {P : List Nat → Prop} (h0 : P []) (h1 : ∀ a, P [a])
    (h2 : ∀ a b, P [a, b]) (h3 : ∀ a b d rest, P rest → P (a :: b :: d :: rest)) :
    ∀ l, P l
  | [] => h0
  | [a] => h1 a
  | [a, b] => h2 a b
  | a :: b :: d :: rest => h3 a b d rest (cells_induction h0 h1 h2 h3 rest)

theorem distance_map_loop_nil (LD : Nat) (s : TopologyState) :
    distance_map_loop LD [] s = (0, s) := rfl

theorem distance_map_loop_one (LD a : Nat) (s : TopologyState) :
    distance_map_loop LD [a] s = (0, s) := rfl

theorem distance_map_loop_two (LD a b : Nat) (s : TopologyState) :
    distance_map_loop LD [a, b] s = (0, s) := rfl

theorem distance_map_loop_cons (LD a b d : Nat) (rest : List Nat) (s : TopologyState) :
    distance_map_loop LD (a :: b :: d :: rest) s =
      if invalid_triple LD (a, b, d) then (-EINVAL, s)
      else distance_map_loop LD rest (commit_triple (a, b, d) s) := by
  simp only [distance_map_loop, invalid_triple, commit_triple]

/-- The loop returns 0 or `-EINVAL`. -/
theorem distance_map_loop_code (LD : Nat) (cells : List Nat) :
    ∀ s, (distance_map_loop LD cells s).1 = 0 ∨ (distance_map_loop LD cells s).1 = -EINVAL := by
  induction cells using cells_induction with
  | h0 => intro s; left; rfl
  | h1 a => intro s; left; rfl
  | h2 a b => intro s; left; rfl
  | h3 a b d rest ih =>
    intro s
    rw [distance_map_loop_cons]
    split
    · right; rfl
    · exact ih _

/-- An invalid triple anywhere among the encoded triples makes the loop fail. -/
theorem distance_map_loop_invalid (LD : Nat) (t : Nat × Nat × Nat) (ht : invalid_triple LD t)
    (cells : List Nat) :
    t ∈ triples_of cells → ∀ s, (distance_map_loop LD cells s).1 = -EINVAL := by
  induction cells using cells_induction with
  | h0 => intro h; simp [triples_of] at h
  | h1 a => intro h; simp [triples_of] at h
  | h2 a b => intro h; simp [triples_of] at h
  | h3 a b d rest ih =>
    intro h s
    rw [distance_map_loop_cons]
    by_cases hv : invalid_triple LD (a, b, d)
    · simp [hv]
    · simp only [hv, if_false]
      simp only [triples_of, List.mem_cons] at h
      rcases h with h | h
      · exact absurd (h ▸ ht) hv
      · exact ih h _

/-- The cells left over after the last whole triple are ignored. -/
theorem distance_map_loop_encode (LD : Nat) (cells : List Nat) :
    ∀ s, distance_map_loop LD (encode_triples (triples_of cells)) s =
      distance_map_loop LD cells s := by
  induction cells using cells_induction with
  | h0 => intro s; rfl
  | h1 a => intro s; rfl
  | h2 a b => intro s; rfl
  | h3 a b d rest ih =>
    intro s
    simp only [triples_of, encode_triples, distance_map_loop_cons]
    split
    · rfl
    · exact ih _

theorem encode_triples_append (xs ys : List (Nat × Nat × Nat)) :
    encode_triples (xs ++ ys) = encode_triples xs ++ encode_triples ys := by
  induction xs with
  | nil => rfl
  | cons t xs ih =>
    obtain ⟨a, b, d⟩ := t
    simp [encode_triples, ih]

theorem triples_of_encode (ts : List (Nat × Nat × Nat)) :
    triples_of (encode_triples ts) = ts := by
  induction ts with
  | nil => rfl
  | cons t ts ih =>
    obtain ⟨a, b, d⟩ := t
    simp only [encode_triples, triples_of, ih]

/-- The loop over whole triples followed by more cells: the later cells are
reached exactly when the whole triples pass. -/
theorem distance_map_loop_append (LD : Nat) (pre : List (Nat × Nat × Nat)) (rest : List Nat) :
    ∀ s, distance_map_loop LD (encode_triples pre ++ rest) s =
      if (distance_map_loop LD (encode_triples pre) s).1 = 0 then
        distance_map_loop LD rest (distance_map_loop LD (encode_triples pre) s).2
      else distance_map_loop LD (encode_triples pre) s := by
  induction pre with
  | nil => intro s; simp [encode_triples, distance_map_loop_nil]
  | cons t pre ih =>
    intro s
    obtain ⟨a, b, d⟩ := t
    simp only [encode_triples, List.cons_append, distance_map_loop_cons]
    by_cases hv : invalid_triple LD (a, b, d)
    · simp only [hv, if_true]
      rw [if_neg (by decide)]
    · simp only [hv, if_false]
      exact ih _

/-- The loop returns 0 when no encoded triple breaks the distance rule. -/
theorem distance_map_loop_valid (LD : Nat) (cells : List Nat) :
    (∀ t ∈ triples_of cells, ¬ invalid_triple LD t) →
      ∀ s, (distance_map_loop LD cells s).1 = 0 := by
  induction cells using cells_induction with
  | h0 => intro _ s; rfl
  | h1 a => intro _ s; rfl
  | h2 a b => intro _ s; rfl
  | h3 a b d rest ih =>
    intro h s
    rw [distance_map_loop_cons]
    have hv : ¬ invalid_triple LD (a, b, d) := h (a, b, d) (by simp [triples_of])
    simp only [hv, if_false]
    exact ih (fun t ht => h t (by simp [triples_of, ht])) _

/-- The table entry that one iteration leaves at `(x, y)`. -/
theorem commit_triple_distance (t : Nat × Nat × Nat) (s : TopologyState) (x y : Nat) :
    (commit_triple t s).numa_distance x y =
      if writes_entry x y t then some t.2.2 else s.numa_distance x y := by
  obtain ⟨a, b, d⟩ := t
  by_cases hw : writes_entry x y (a, b, d)
  · rw [if_pos hw]
    simp only [writes_entry] at hw
    simp only [commit_triple, numa_set_distance, node_set]
    rcases hw with ⟨h1, h2⟩ | ⟨h0, h1, h2⟩
    · subst h1 h2
      split <;> simp
    · subst h1 h2
      simp [h0]
  · rw [if_neg hw]
    simp only [writes_entry, not_or, not_and] at hw
    obtain ⟨h1, h2⟩ := hw
    simp only [commit_triple, numa_set_distance, node_set]
    have e1 : ¬ (x = a ∧ y = b) := fun h => h1 h.1.symm h.2.symm
    by_cases hba : b > a
    · have e2 : ¬ (x = b ∧ y = a) := fun h => h2 hba h.1.symm h.2.symm
      simp [hba, e1, e2]
    · simp [hba, e1]

/-- An entry that no encoded triple writes keeps its value, whether the loop
succeeds or fails. -/
theorem distance_map_loop_untouched (LD : Nat) (x y : Nat) (cells : List Nat) :
    (∀ t ∈ triples_of cells, ¬ writes_entry x y t) →
      ∀ s, (distance_map_loop LD cells s).2.numa_distance x y = s.numa_distance x y := by
  induction cells using cells_induction with
  | h0 => intro _ s; rfl
  | h1 a => intro _ s; rfl
  | h2 a b => intro _ s; rfl
  | h3 a b d rest ih =>
    intro h s
    rw [distance_map_loop_cons]
    by_cases hv : invalid_triple LD (a, b, d)
    · simp only [hv, if_true]
    · simp only [hv, if_false]
      rw [ih (fun t ht => h t (by simp [triples_of, ht])), commit_triple_distance]
      rw [if_neg (h (a, b, d) (by simp [triples_of]))]

/-- Last write wins: when every encoded triple passes the check, the entry
`(x, y)` holds the distance of the last triple that writes it. -/
theorem distance_map_loop_last_write (LD : Nat) (x y : Nat) (cells : List Nat)
    (pre post : List (Nat × Nat × Nat)) (t : Nat × Nat × Nat)
    (hts : triples_of cells = pre ++ t :: post)
    (hvalid : ∀ u ∈ triples_of cells, ¬ invalid_triple LD u)
    (hw : writes_entry x y t) (hpost : ∀ u ∈ post, ¬ writes_entry x y u) (s : TopologyState) :
    (distance_map_loop LD cells s).2.numa_distance x y = some t.2.2 := by
  obtain ⟨a, b, d⟩ := t
  rw [← distance_map_loop_encode, hts, encode_triples_append, distance_map_loop_append]
  have hpre : (distance_map_loop LD (encode_triples pre) s).1 = 0 := by
    apply distance_map_loop_valid
    intro u hu
    rw [triples_of_encode] at hu
    exact hvalid u (by rw [hts]; exact List.mem_append_left _ hu)
  rw [if_pos hpre]
  simp only [encode_triples, distance_map_loop_cons]
  have hv : ¬ invalid_triple LD (a, b, d) := hvalid (a, b, d) (by rw [hts]; simp)
  simp only [hv, if_false]
  rw [distance_map_loop_untouched LD x y (encode_triples post)
    (by rw [triples_of_encode]; exact hpost), commit_triple_distance, if_pos hw]

/-- With a "distance-matrix" property of at least one cell the function is its loop. -/
theorem parse_distance_map_v1_cells (LD : Nat) (map : device_node) (s : TopologyState)
    (cells : List Nat) (hmap : map.props.distance_matrix = some cells) (hne : cells ≠ []) :
    of_numa_parse_distance_map_v1 LD map s = distance_map_loop LD cells s := by
  have hlen : ¬ ((cells.length : Int) ≤ 0) := by
    cases cells with
    | nil => exact absurd rfl hne
    | cons c cs => simp only [List.length_cons]; omega
  simp only [of_numa_parse_distance_map_v1, of_get_property, of_property_count_u32_elems, hmap]
  rw [if_neg hlen]

/-- Without the property, or with a property of no cells, the function fails at once. -/
theorem parse_distance_map_v1_no_cells (LD : Nat) (map : device_node) (s : TopologyState)
    (hmap : map.props.distance_matrix = none ∨ map.props.distance_matrix = some []) :
    of_numa_parse_distance_map_v1 LD map s = (-EINVAL, s) := by
  rcases hmap with h | h <;>
    simp [of_numa_parse_distance_map_v1, of_get_property, of_property_count_u32_elems, h]

/-! ## C1: a triple that breaks the distance rule is fatal -/

/-- C1: for every distance-map node and every sequence of cells in its
"distance-matrix", if some encoded triple `(a, b, d)` has `a = b` and
`d ≠ LOCAL_DISTANCE`, or `a ≠ b` and `d ≤ LOCAL_DISTANCE`, then
`of_numa_parse_distance_map_v1` returns `-EINVAL`. -/
theorem distance_map_v1_invalid_triple_EINVAL (LOCAL_DISTANCE : Nat) (map : device_node)
    (s : TopologyState) (cells : List Nat) (a b d : Nat)
    (hmap : map.props.distance_matrix = some cells)
    (hmem : (a, b, d) ∈ triples_of cells)
    (hbad : (a = b ∧ d ≠ LOCAL_DISTANCE) ∨ (a ≠ b ∧ d ≤ LOCAL_DISTANCE)) :
    (of_numa_parse_distance_map_v1 LOCAL_DISTANCE map s).1 = -EINVAL := by
  have hne : cells ≠ [] := by
    intro h
    rw [h] at hmem
    simp [triples_of] at hmem
  rw [parse_distance_map_v1_cells LOCAL_DISTANCE map s cells hmap hne]
  exact distance_map_loop_invalid LOCAL_DISTANCE (a, b, d) hbad cells hmem s

/-- The triples `<1 1 15>` and `<0 1 10>` are fatal when `LOCAL_DISTANCE` is 10. -/
theorem distance_map_v1_invalid_triple_EINVAL_witness :
    (of_numa_parse_distance_map_v1 10 (distance_map_node [1, 1, 15]) TopologyState.empty).1
        = -EINVAL ∧
      (of_numa_parse_distance_map_v1 10 (distance_map_node [0, 1, 10])
        TopologyState.empty).1 = -EINVAL :=
  ⟨distance_map_v1_invalid_triple_EINVAL 10 (distance_map_node [1, 1, 15]) TopologyState.empty
      [1, 1, 15] 1 1 15 rfl (by simp [triples_of]) (by decide),
   distance_map_v1_invalid_triple_EINVAL 10 (distance_map_node [0, 1, 10])
      TopologyState.empty [0, 1, 10] 0 1 10 rfl (by simp [triples_of]) (by decide)⟩

/-! ## C2: the element count of the distance matrix -/

/-- C2, as stated, fails: a "distance-matrix" of four cells (one whole triple
and one cell left over) and one of a single cell are not positive multiples
of 3 in length, and `of_numa_parse_distance_map_v1` returns 0 on both. -/
theorem distance_map_v1_count_not_multiple_of_3_accepted :
    ((distance_map_node [0, 1, 20, 7]).props.distance_matrix = some [0, 1, 20, 7] ∧
      ¬ (0 < [0, 1, 20, 7].length ∧ 3 ∣ [0, 1, 20, 7].length) ∧
      (of_numa_parse_distance_map_v1 10 (distance_map_node [0, 1, 20, 7])
        TopologyState.empty).1 = 0) ∧
    ((distance_map_node [5]).props.distance_matrix = some [5] ∧
      ¬ (0 < [5].length ∧ 3 ∣ [5].length) ∧
      (of_numa_parse_distance_map_v1 10 (distance_map_node [5])
        TopologyState.empty).1 = 0) :=
  ⟨⟨rfl, by decide, rfl⟩, ⟨rfl, by decide, rfl⟩⟩

/-- C2, amended: the function returns `-EINVAL` (and writes nothing) when the
"distance-matrix" property is absent or has no cell. Any other element count
is accepted: with one or two cells the function returns 0 and writes nothing,
and with three or more it ignores the one or two cells after the last whole
triple, behaving as on the node whose matrix is the whole triples alone (a
positive multiple of 3 cells). -/
theorem distance_map_v1_count_amended (LOCAL_DISTANCE : Nat) (map : device_node)
    (s : TopologyState) :
    ((map.props.distance_matrix = none ∨ map.props.distance_matrix = some []) →
        of_numa_parse_distance_map_v1 LOCAL_DISTANCE map s = (-EINVAL, s)) ∧
      (∀ cells, map.props.distance_matrix = some cells →
        (cells.length = 1 ∨ cells.length = 2) →
        of_numa_parse_distance_map_v1 LOCAL_DISTANCE map s = (0, s)) ∧
      (∀ cells, map.props.distance_matrix = some cells → 3 ≤ cells.length →
        (0 < (encode_triples (triples_of cells)).length ∧
          3 ∣ (encode_triples (triples_of cells)).length) ∧
        of_numa_parse_distance_map_v1 LOCAL_DISTANCE map s =
          of_numa_parse_distance_map_v1 LOCAL_DISTANCE
            (distance_map_node (encode_triples (triples_of cells))) s) := by
  refine ⟨parse_distance_map_v1_no_cells LOCAL_DISTANCE map s, ?_, ?_⟩
  · intro cells hmap hlen
    have hne : cells ≠ [] := by
      intro h; rw [h] at hlen; simp at hlen
    rw [parse_distance_map_v1_cells LOCAL_DISTANCE map s cells hmap hne]
    match cells, hlen with
    | [a], _ => rfl
    | [a, b], _ => rfl
    | [], h => simp at h
    | _ :: _ :: _ :: _, h => simp at h
  · intro cells hmap hlen
    have hne : cells ≠ [] := by
      intro h; rw [h] at hlen; simp at hlen
    have hlen3 : ∀ ts : List (Nat × Nat × Nat),
        (encode_triples ts).length = 3 * ts.length := by
      intro ts
      induction ts with
      | nil => rfl
      | cons t ts ih =>
        obtain ⟨a, b, d⟩ := t
        simp only [encode_triples, List.length_cons, ih]
        omega
    have hts : triples_of cells ≠ [] := by
      match cells, hlen with
      | a :: b :: d :: rest, _ => simp [triples_of]
      | [], h => simp at h
      | [_], h => simp at h
      | [_, _], h => simp at h
    have hpos : 0 < (triples_of cells).length := List.length_pos.mpr hts
    have henc : encode_triples (triples_of cells) ≠ [] := by
      intro h
      have := hlen3 (triples_of cells)
      rw [h] at this
      simp at this
      exact hts this
    refine ⟨⟨?_, ?_⟩, ?_⟩
    · rw [hlen3]; omega
    · rw [hlen3]; exact Dvd.intro _ rfl
    · rw [parse_distance_map_v1_cells LOCAL_DISTANCE map s cells hmap hne,
        parse_distance_map_v1_cells LOCAL_DISTANCE
          (distance_map_node (encode_triples (triples_of cells))) s _ rfl henc,
        distance_map_loop_encode]

/-- The amended C2 at a node without the property, at matrices of one and of
two cells, and at a matrix of four cells. -/
theorem distance_map_v1_count_amended_witness :
    of_numa_parse_distance_map_v1 10 (.root ⟨.Absent, [], none⟩) TopologyState.empty
        = (-EINVAL, TopologyState.empty) ∧
      of_numa_parse_distance_map_v1 10 (distance_map_node [3, 4]) TopologyState.empty
        = (0, TopologyState.empty) ∧
      of_numa_parse_distance_map_v1 10 (distance_map_node [0, 1, 20, 7]) TopologyState.empty
        = of_numa_parse_distance_map_v1 10
            (distance_map_node (encode_triples (triples_of [0, 1, 20, 7])))
            TopologyState.empty :=
  ⟨(distance_map_v1_count_amended 10 (.root ⟨.Absent, [], none⟩) TopologyState.empty).1
      (Or.inl rfl),
   (distance_map_v1_count_amended 10 (distance_map_node [3, 4]) TopologyState.empty).2.1
      [3, 4] rfl (Or.inr rfl),
   ((distance_map_v1_count_amended 10 (distance_map_node [0, 1, 20, 7])
      TopologyState.empty).2.2 [0, 1, 20, 7] rfl (by decide)).2⟩

/-! ## C3: mirroring of a distance that is encoded in one direction only -/

/-- C3, as stated, fails. With the single triple `<1 0 20>` the parse succeeds
and `distance(0, 1)` stays unrecorded, because the triple has `node_b < node_a`
and is not mirrored. With `<0 1 20> <0 1 30>` the triple `(0, 1, 20)` is
encoded and no `(1, 0, *)` is, yet `distance(1, 0)` is 30. -/
theorem distance_map_v1_mirror_counterexample :
    ((1, 0, 20) ∈ triples_of [1, 0, 20] ∧ (∀ d, (0, 1, d) ∉ triples_of [1, 0, 20]) ∧
      (of_numa_parse_distance_map_v1 10 (distance_map_node [1, 0, 20])
        TopologyState.empty).1 = 0 ∧
      (of_numa_parse_distance_map_v1 10 (distance_map_node [1, 0, 20])
        TopologyState.empty).2.numa_distance 0 1 = none) ∧
    ((0, 1, 20) ∈ triples_of [0, 1, 20, 0, 1, 30] ∧
      (∀ d, (1, 0, d) ∉ triples_of [0, 1, 20, 0, 1, 30]) ∧
      (of_numa_parse_distance_map_v1 10 (distance_map_node [0, 1, 20, 0, 1, 30])
        TopologyState.empty).1 = 0 ∧
      (of_numa_parse_distance_map_v1 10 (distance_map_node [0, 1, 20, 0, 1, 30])
        TopologyState.empty).2.numa_distance 1 0 = some 30) := by
  refine ⟨⟨by simp [triples_of], by simp [triples_of], rfl, rfl⟩,
    ⟨by simp [triples_of], by simp [triples_of], rfl, rfl⟩⟩

/-- C3, amended: take a distance matrix in which every triple passes the check
and no triple `(b, a, *)` is encoded. If `a < b` and `(a, b, d)` is the last
triple `(a, b, *)` of the sequence, the parse returns 0 and the recorded
`distance(b, a)` is `d`. If `a > b` and a triple `(a, b, d)` is encoded, the
parse returns 0 and `distance(b, a)` is left as it was before the call
(unrecorded when the parse starts from an empty matrix). -/
theorem distance_map_v1_mirror_amended (LOCAL_DISTANCE : Nat) (map : device_node)
    (s : TopologyState) (cells : List Nat) (a b d : Nat)
    (hmap : map.props.distance_matrix = some cells)
    (hvalid : ∀ u ∈ triples_of cells, ¬ invalid_triple LOCAL_DISTANCE u)
    (hno : ∀ d2, (b, a, d2) ∉ triples_of cells) :
    (a < b → ∀ pre post, triples_of cells = pre ++ (a, b, d) :: post →
        (∀ d2, (a, b, d2) ∉ post) →
        (of_numa_parse_distance_map_v1 LOCAL_DISTANCE map s).1 = 0 ∧
        (of_numa_parse_distance_map_v1 LOCAL_DISTANCE map s).2.numa_distance b a = some d) ∧
      (b < a → (a, b, d) ∈ triples_of cells →
        (of_numa_parse_distance_map_v1 LOCAL_DISTANCE map s).1 = 0 ∧
        (of_numa_parse_distance_map_v1 LOCAL_DISTANCE map s).2.numa_distance b a =
          s.numa_distance b a) := by
  constructor
  · intro hab pre post hts hlast
    have hne : cells ≠ [] := by
      intro h
      rw [h] at hts
      simp [triples_of] at hts
    rw [parse_distance_map_v1_cells LOCAL_DISTANCE map s cells hmap hne]
    refine ⟨distance_map_loop_valid LOCAL_DISTANCE cells hvalid s, ?_⟩
    refine distance_map_loop_last_write LOCAL_DISTANCE b a cells pre post (a, b, d) hts hvalid
      (Or.inr ⟨hab, rfl, rfl⟩) ?_ s
    rintro ⟨u1, u2, u3⟩ hu (⟨h1, h2⟩ | ⟨_, h1, h2⟩)
    · simp only at h1 h2
      subst h1 h2
      exact hno u3 (by rw [hts]; simp [hu])
    · simp only at h1 h2
      subst h1 h2
      exact hlast u3 hu
  · intro hba hmem
    have hne : cells ≠ [] := by
      intro h
      rw [h] at hmem
      simp [triples_of] at hmem
    rw [parse_distance_map_v1_cells LOCAL_DISTANCE map s cells hmap hne]
    refine ⟨distance_map_loop_valid LOCAL_DISTANCE cells hvalid s, ?_⟩
    apply distance_map_loop_untouched
    rintro ⟨u1, u2, u3⟩ hu (⟨h1, h2⟩ | ⟨h0, h1, h2⟩)
    · simp only at h1 h2
      subst h1 h2
      exact hno u3 hu
    · simp only at h0 h1 h2
      subst h1 h2
      omega

/-- The amended C3 at `<0 1 20>` (mirrored into `distance(1, 0)`) and at
`<1 0 20>` (not mirrored). -/
theorem distance_map_v1_mirror_amended_witness :
    ((of_numa_parse_distance_map_v1 10 (distance_map_node [0, 1, 20])
        TopologyState.empty).1 = 0 ∧
      (of_numa_parse_distance_map_v1 10 (distance_map_node [0, 1, 20])
        TopologyState.empty).2.numa_distance 1 0 = some 20) ∧
    ((of_numa_parse_distance_map_v1 10 (distance_map_node [1, 0, 20])
        TopologyState.empty).1 = 0 ∧
      (of_numa_parse_distance_map_v1 10 (distance_map_node [1, 0, 20])
        TopologyState.empty).2.numa_distance 0 1 = TopologyState.empty.numa_distance 0 1) :=
  ⟨(distance_map_v1_mirror_amended 10 (distance_map_node [0, 1, 20]) TopologyState.empty
      [0, 1, 20] 0 1 20 rfl (by decide) (by simp [triples_of])).1 (by decide) [] [] rfl
      (by simp),
   (distance_map_v1_mirror_amended 10 (distance_map_node [1, 0, 20]) TopologyState.empty
      [1, 0, 20] 1 0 20 rfl (by decide) (by simp [triples_of])).2 (by decide)
      (by simp [triples_of])⟩

/-! ## C4: a later explicit reverse triple overwrites the mirrored value -/

/-- C4: take a distance matrix in which every triple passes the check, a triple
`(a, b, d)` with `a ≠ b` is followed later by a triple `(b, a, d2)`, and no
triple naming the pair `{a, b}` follows that one. Then
`of_numa_parse_distance_map_v1` returns 0 (no conflict is reported) and the
recorded `distance(b, a)` is `d2`. -/
theorem distance_map_v1_reverse_overwrites (LOCAL_DISTANCE : Nat) (map : device_node)
    (s : TopologyState) (cells : List Nat) (pre post : List (Nat × Nat × Nat))
    (a b d d2 : Nat) (hab : a ≠ b)
    (hmap : map.props.distance_matrix = some cells)
    (hvalid : ∀ u ∈ triples_of cells, ¬ invalid_triple LOCAL_DISTANCE u)
    (hts : triples_of cells = pre ++ (b, a, d2) :: post)
    (hpre : (a, b, d) ∈ pre)
    (hpost : ∀ u ∈ post, ¬ ((u.1 = a ∧ u.2.1 = b) ∨ (u.1 = b ∧ u.2.1 = a))) :
    (of_numa_parse_distance_map_v1 LOCAL_DISTANCE map s).1 = 0 ∧
      (of_numa_parse_distance_map_v1 LOCAL_DISTANCE map s).2.numa_distance b a = some d2 := by
  have hne : cells ≠ [] := by
    intro h
    rw [h] at hts
    simp [triples_of] at hts
  rw [parse_distance_map_v1_cells LOCAL_DISTANCE map s cells hmap hne]
  refine ⟨distance_map_loop_valid LOCAL_DISTANCE cells hvalid s, ?_⟩
  refine distance_map_loop_last_write LOCAL_DISTANCE b a cells pre post (b, a, d2) hts hvalid
    (Or.inl ⟨rfl, rfl⟩) ?_ s
  intro u hu hw
  apply hpost u hu
  rcases hw with ⟨h1, h2⟩ | ⟨_, h1, h2⟩
  · exact Or.inr ⟨h1, h2⟩
  · exact Or.inl ⟨h2, h1⟩

/-- The claim C4 at `<0 1 20> <1 0 30>`, where `distance(1, 0)` ends as 30, and
at `<1 0 20> <0 1 30>`, where `distance(0, 1)` ends as 30. -/
theorem distance_map_v1_reverse_overwrites_witness :
    ((of_numa_parse_distance_map_v1 10 (distance_map_node [0, 1, 20, 1, 0, 30])
        TopologyState.empty).1 = 0 ∧
      (of_numa_parse_distance_map_v1 10 (distance_map_node [0, 1, 20, 1, 0, 30])
        TopologyState.empty).2.numa_distance 1 0 = some 30) ∧
    ((of_numa_parse_distance_map_v1 10 (distance_map_node [1, 0, 20, 0, 1, 30])
        TopologyState.empty).1 = 0 ∧
      (of_numa_parse_distance_map_v1 10 (distance_map_node [1, 0, 20, 0, 1, 30])
        TopologyState.empty).2.numa_distance 0 1 = some 30) :=
  ⟨distance_map_v1_reverse_overwrites 10 (distance_map_node [0, 1, 20, 1, 0, 30])
      TopologyState.empty [0, 1, 20, 1, 0, 30] [(0, 1, 20)] [] 0 1 20 30 (by decide) rfl
      (by decide) rfl (by simp) (by simp),
   distance_map_v1_reverse_overwrites 10 (distance_map_node [1, 0, 20, 0, 1, 30])
      TopologyState.empty [1, 0, 20, 0, 1, 30] [(1, 0, 20)] [] 1 0 20 30 (by decide) rfl
      (by decide) rfl (by simp) (by simp)⟩

/-! ## C5: the processor scan -/

/-- The node mask after the processor loop, whatever `nid` held before. -/
theorem cpu_nodes_loop_parsed (MAX : Nat) (cpus : List device_node) :
    ∀ (nid : Nat) (s : TopologyState),
      (cpu_nodes_loop MAX cpus nid s).numa_nodes_parsed =
        s.numa_nodes_parsed ∪ (cpu_declared_ids MAX cpus).toFinset := by
  induction cpus with
  | nil => intro nid s; simp [cpu_nodes_loop, cpu_declared_ids]
  | cons np rest ih =>
    intro nid s
    cases hp : np.props.numa_node_id with
    | Value v =>
      by_cases hv : v < MAX
      · have hge : ¬ v ≥ MAX := by omega
        simp only [cpu_nodes_loop, of_property_read_u32, hp, cpu_declared_ids, hv, hge,
          if_true, if_false, ne_eq, not_true_eq_false]
        rw [ih]
        ext n
        simp [node_set]
      · have hge : v ≥ MAX := by omega
        simp only [cpu_nodes_loop, of_property_read_u32, hp, cpu_declared_ids, hv, hge,
          if_true, if_false, ne_eq, not_true_eq_false]
        rw [ih]
    | Absent =>
      simp only [cpu_nodes_loop, of_property_read_u32, hp, cpu_declared_ids, EINVAL]
      rw [if_pos (by decide), ih]
    | Malformed e =>
      cases e <;>
        simp only [cpu_nodes_loop, of_property_read_u32, hp, cpu_declared_ids, ENODATA,
          EOVERFLOW] <;>
        rw [if_pos (by decide), ih]

theorem cpu_declared_ids_lt (MAX : Nat) (cpus : List device_node) :
    ∀ n ∈ cpu_declared_ids MAX cpus, n < MAX := by
  induction cpus with
  | nil => intro n hn; simp [cpu_declared_ids] at hn
  | cons np rest ih =>
    intro n hn
    cases hp : np.props.numa_node_id with
    | Value v =>
      by_cases hv : v < MAX
      · simp only [cpu_declared_ids, hp, hv, if_true, List.mem_cons] at hn
        rcases hn with h | h
        · omega
        · exact ih n h
      · simp only [cpu_declared_ids, hp, hv, if_false] at hn
        exact ih n hn
    | Absent =>
      simp only [cpu_declared_ids, hp] at hn
      exact ih n hn
    | Malformed e =>
      simp only [cpu_declared_ids, hp] at hn
      exact ih n hn

/-- C5: for every list of processor nodes and every initial node set `S`, the
set after `of_numa_parse_cpu_nodes` is `S` united with exactly the ids read
successfully from a processor node's own "numa-node-id" that are below
`MAX_NUMNODES`; every such id is present, and every id the pass inserts is
below `MAX_NUMNODES`. -/
theorem cpu_nodes_parsed_exact (MAX_NUMNODES nid0 : Nat) (cpus : List device_node)
    (s : TopologyState) :
    (of_numa_parse_cpu_nodes MAX_NUMNODES nid0 cpus s).numa_nodes_parsed =
        s.numa_nodes_parsed ∪ (cpu_declared_ids MAX_NUMNODES cpus).toFinset ∧
      (cpu_declared_ids MAX_NUMNODES cpus).toFinset ⊆
        (of_numa_parse_cpu_nodes MAX_NUMNODES nid0 cpus s).numa_nodes_parsed ∧
      (of_numa_parse_cpu_nodes MAX_NUMNODES nid0 cpus s).numa_nodes_parsed \
        s.numa_nodes_parsed ⊆ Finset.range MAX_NUMNODES := by
  have h := cpu_nodes_loop_parsed MAX_NUMNODES cpus nid0 s
  simp only [of_numa_parse_cpu_nodes]
  refine ⟨h, ?_, ?_⟩
  · rw [h]
    exact Finset.subset_union_right
  · rw [h]
    intro n hn
    simp only [Finset.mem_sdiff, Finset.mem_union, List.mem_toFinset] at hn
    rcases hn with ⟨h1 | h1, h2⟩
    · exact absurd h1 h2
    · exact Finset.mem_range.mpr (cpu_declared_ids_lt MAX_NUMNODES cpus n h1)

/-! ## Shared lemmas on the memory scan -/

/-- The list `resources np` holds what `of_address_to_resource` returns index by index. -/
theorem of_address_to_resource_eq (np : device_node) (i : Nat) :
    of_address_to_resource np i = (resources np).get? i := by
  simp [of_address_to_resource, resources]

theorem commit_all_nil (s : TopologyState) : commit_all [] s = s := by
  cases s
  simp [commit_all]

theorem commit_all_append (xs ys : List MemoryRange) (s : TopologyState) :
    commit_all (xs ++ ys) s = commit_all ys (commit_all xs s) := by
  simp [commit_all]

/-- The end passed to `numa_add_memblk`, `rsrc.end + 1`, is `start + length` in u64. -/
theorem resource_end_succ (start length : Nat) :
    ((start + length + U64_MOD - 1) % U64_MOD + 1) % U64_MOD = u64_add start length := by
  simp only [U64_MOD, u64_add]
  omega

/-- Once `r` is nonzero the inner loop makes no call. -/
theorem add_memblk_loop_stops (rc : List MemoryRange → MemoryRange → Int) (nid : Nat)
    (rs : List resource) (i : Nat) (r : Int) (s : TopologyState) (hr : r ≠ 0) :
    add_memblk_loop rc nid rs i r s = (i, r, s) := by
  cases rs with
  | nil => rfl
  | cons x rest => simp [add_memblk_loop, hr]

/-- When every commit succeeds the inner loop commits every resource in order. -/
theorem add_memblk_loop_all (rc : List MemoryRange → MemoryRange → Int)
    (hrc : ∀ reg rng, rc reg rng = 0) (nid : Nat) (rs : List resource) :
    ∀ (i : Nat) (s : TopologyState),
      add_memblk_loop rc nid rs i 0 s =
        (i + rs.length, 0,
          commit_all (rs.map (fun x =>
            { node := nid, start := x.start, end_exclusive := (x.end_ + 1) % U64_MOD })) s) := by
  induction rs with
  | nil => intro i s; simp [add_memblk_loop, commit_all_nil]
  | cons x rest ih =>
    intro i s
    simp only [add_memblk_loop, numa_add_memblk, hrc, ne_eq, not_true_eq_false, if_false,
      if_true, List.map_cons, List.length_cons]
    rw [ih]
    simp only [commit_all, List.append_assoc, List.singleton_append, Prod.mk.injEq, and_true]
    omega

/-- The ranges that the inner loop passes to the registry for a node with id `v`. -/
theorem resources_map_declared (np : device_node) (v : Nat)
    (hv : np.props.numa_node_id = .Value v) :
    (resources np).map (fun x =>
        ({ node := v, start := x.start, end_exclusive := (x.end_ + 1) % U64_MOD } :
          MemoryRange)) =
      node_declared_ranges np := by
  simp only [resources, node_declared_ranges, hv, List.map_map]
  apply List.map_congr_left
  intro e _
  simp [resource_end_succ]

/-- One iteration of the loop over the memory nodes. -/
theorem memory_nodes_loop_cons (rc : List MemoryRange → MemoryRange → Int) (MAX : Nat)
    (np : device_node) (rest : List device_node) (nid : Nat) (s : TopologyState) :
    memory_nodes_loop rc MAX (np :: rest) nid s =
      if (of_property_read_u32 np nid).1 = -EINVAL then
        memory_nodes_loop rc MAX rest (of_property_read_u32 np nid).2 s
      else if
        (add_memblk_loop rc (of_property_read_u32 np nid).2 (resources np) 0
          (if (of_property_read_u32 np nid).2 ≥ MAX then -EINVAL
           else (of_property_read_u32 np nid).1) s).1 = 0 ∨
        (add_memblk_loop rc (of_property_read_u32 np nid).2 (resources np) 0
          (if (of_property_read_u32 np nid).2 ≥ MAX then -EINVAL
           else (of_property_read_u32 np nid).1) s).2.1 ≠ 0 then
        (if (add_memblk_loop rc (of_property_read_u32 np nid).2 (resources np) 0
              (if (of_property_read_u32 np nid).2 ≥ MAX then -EINVAL
               else (of_property_read_u32 np nid).1) s).2.1 ≠ 0 then
            (add_memblk_loop rc (of_property_read_u32 np nid).2 (resources np) 0
              (if (of_property_read_u32 np nid).2 ≥ MAX then -EINVAL
               else (of_property_read_u32 np nid).1) s).2.1
          else -EINVAL,
          (add_memblk_loop rc (of_property_read_u32 np nid).2 (resources np) 0
            (if (of_property_read_u32 np nid).2 ≥ MAX then -EINVAL
             else (of_property_read_u32 np nid).1) s).2.2)
      else
        memory_nodes_loop rc MAX rest (of_property_read_u32 np nid).2
          (add_memblk_loop rc (of_property_read_u32 np nid).2 (resources np) 0
            (if (of_property_read_u32 np nid).2 ≥ MAX then -EINVAL
             else (of_property_read_u32 np nid).1) s).2.2 := by
  simp only [memory_nodes_loop]

/-- The code an aborting iteration returns is not 0. -/
theorem abort_code_ne_zero (r : Int) : (if r ≠ 0 then r else -EINVAL) ≠ 0 := by
  by_cases h : r = 0
  · simp [h, EINVAL]
  · simp [h]

/-- A scan that gets through the nodes `pre` goes on with the nodes after them,
from the state it has reached. -/
theorem memory_nodes_loop_append (rc : List MemoryRange → MemoryRange → Int) (MAX : Nat)
    (pre rest : List device_node) :
    ∀ (nid : Nat) (s : TopologyState), (memory_nodes_loop rc MAX pre nid s).1 = 0 →
      ∃ nid2, memory_nodes_loop rc MAX (pre ++ rest) nid s =
        memory_nodes_loop rc MAX rest nid2 (memory_nodes_loop rc MAX pre nid s).2 := by
  induction pre with
  | nil => intro nid s _; exact ⟨nid, rfl⟩
  | cons np pre ih =>
    intro nid s h
    rw [List.cons_append, memory_nodes_loop_cons rc MAX np (pre ++ rest),
      memory_nodes_loop_cons rc MAX np pre]
    rw [memory_nodes_loop_cons] at h
    generalize of_property_read_u32 np nid = rd at h ⊢
    obtain ⟨r, nid1⟩ := rd
    simp only at h ⊢
    by_cases hr : r = -EINVAL
    · simp only [if_pos hr] at h ⊢
      exact ih _ _ h
    · simp only [if_neg hr] at h ⊢
      generalize add_memblk_loop rc nid1 (resources np) 0
        (if nid1 ≥ MAX then -EINVAL else r) s = out at h ⊢
      obtain ⟨i, r2, s2⟩ := out
      simp only at h ⊢
      by_cases hbad : i = 0 ∨ r2 ≠ 0
      · simp only [if_pos hbad] at h
        exact absurd h (abort_code_ne_zero r2)
      · simp only [if_neg hbad] at h ⊢
        exact ih _ _ h

/-- When every declaring node is valid and has a range and every commit
succeeds, the loop commits the declared ranges in order and returns 0. -/
theorem memory_nodes_loop_all (rc : List MemoryRange → MemoryRange → Int) (MAX : Nat)
    (hrc : ∀ reg rng, rc reg rng = 0) (mems : List device_node) :
    (∀ np ∈ mems, np.props.numa_node_id = .Absent ∨
        ∃ v, np.props.numa_node_id = .Value v ∧ v < MAX ∧ np.props.reg ≠ []) →
      ∀ (nid : Nat) (s : TopologyState),
        memory_nodes_loop rc MAX mems nid s = (0, commit_all (declared_ranges mems) s) := by
  induction mems with
  | nil => intro _ nid s; simp [memory_nodes_loop, declared_ranges, commit_all_nil]
  | cons np rest ih =>
    intro h nid s
    have ih2 := ih (fun x hx => h x (List.mem_cons_of_mem _ hx))
    rw [memory_nodes_loop_cons]
    rcases h np (List.mem_cons_self _ _) with habs | ⟨v, hv, hlt, hreg⟩
    · have hread : of_property_read_u32 np nid = (-EINVAL, nid) := by
        simp [of_property_read_u32, habs]
      simp only [hread, if_true]
      rw [ih2]
      simp [declared_ranges, node_declared_ranges, habs]
    · have hread : of_property_read_u32 np nid = (0, v) := by
        simp [of_property_read_u32, hv]
      have hge : ¬ v ≥ MAX := by omega
      have hlen : (resources np).length ≠ 0 := by
        simp only [resources, List.length_map, ne_eq, List.length_eq_zero]
        exact hreg
      simp only [hread, hge, if_false]
      rw [if_neg (by decide), add_memblk_loop_all rc hrc]
      simp only [ne_eq, not_true_eq_false, or_false, Nat.zero_add]
      rw [if_neg hlen, ih2, resources_map_declared np v hv]
      simp [declared_ranges, commit_all_append]

/-! ## C6: the ranges the memory scan commits -/

/-- C6: for every list of memory nodes in which each node that declares a
node-id has a valid id (below `MAX_NUMNODES`) and at least one address range,
and with a registry that accepts every commit, `of_numa_parse_memory_nodes`
returns 0 and the ranges it commits are exactly, in tree order of the nodes and
declaration order of each node's ranges, the triples
`(node-id, start, start + length)`; the sum is the u64 sum, which is
`start + length` whenever that is below two to the power 64. -/
theorem memory_nodes_commit_declared (memblk_rc : List MemoryRange → MemoryRange → Int)
    (MAX_NUMNODES nid0 : Nat) (mems : List device_node) (s : TopologyState)
    (hnodes : ∀ np ∈ mems, np.props.numa_node_id = .Absent ∨
        ∃ v, np.props.numa_node_id = .Value v ∧ v < MAX_NUMNODES ∧ np.props.reg ≠ [])
    (hrc : ∀ reg rng, memblk_rc reg rng = 0) :
    (of_numa_parse_memory_nodes memblk_rc MAX_NUMNODES nid0 mems s).1 = 0 ∧
      (of_numa_parse_memory_nodes memblk_rc MAX_NUMNODES nid0 mems s).2.memblks =
        s.memblks ++ declared_ranges mems ∧
      (of_numa_parse_memory_nodes memblk_rc MAX_NUMNODES nid0 mems s).2.memblk_calls =
        s.memblk_calls ++ declared_ranges mems ∧
      (∀ start length, start + length < U64_MOD → u64_add start length = start + length) := by
  simp only [of_numa_parse_memory_nodes]
  rw [memory_nodes_loop_all memblk_rc MAX_NUMNODES hrc mems hnodes]
  refine ⟨rfl, rfl, rfl, ?_⟩
  intro start length h
  exact Nat.mod_eq_of_lt h

/-- The claim C6 on three memory nodes: node 0 with one range, a node without
id, node 1 with two ranges. -/
theorem memory_nodes_commit_declared_witness :
    (of_numa_parse_memory_nodes (fun _ _ => 0) 4 0
        [.root ⟨.Value 0, [(0, 1073741824)], none⟩,
         .root ⟨.Absent, [(4096, 4096)], none⟩,
         .root ⟨.Value 1, [(1073741824, 4096), (2147483648, 8192)], none⟩]
        TopologyState.empty).2.memblks =
      [⟨0, 0, 1073741824⟩, ⟨1, 1073741824, 1073745920⟩, ⟨1, 2147483648, 2147491840⟩] := by
  have h := (memory_nodes_commit_declared (fun _ _ => 0) 4 0
    [.root ⟨.Value 0, [(0, 1073741824)], none⟩,
     .root ⟨.Absent, [(4096, 4096)], none⟩,
     .root ⟨.Value 1, [(1073741824, 4096), (2147483648, 8192)], none⟩]
    TopologyState.empty
    (by
      intro np hnp
      simp only [List.mem_cons, List.mem_singleton, List.not_mem_nil, or_false] at hnp
      rcases hnp with rfl | rfl | rfl
      · exact Or.inr ⟨0, rfl, by decide, by simp [device_node.props]⟩
      · exact Or.inl rfl
      · exact Or.inr ⟨1, rfl, by decide, by simp [device_node.props]⟩)
    (fun _ _ => rfl)).2.1
  rw [h]
  decide

/-! ## C7: a declaring memory node without address ranges -/

/-- C7: if the scan reaches a memory node (the scan of the nodes before it
returns 0) whose "numa-node-id" is not absent and which has no address range,
`of_numa_parse_memory_nodes` returns an error and ends in the state reached
before that node: nothing of that node or of a later node is committed, and
what the earlier nodes committed stays. -/
theorem memory_nodes_zero_ranges_fatal (memblk_rc : List MemoryRange → MemoryRange → Int)
    (MAX_NUMNODES nid0 : Nat) (pre post : List device_node) (np : device_node)
    (s : TopologyState)
    (hreach : (of_numa_parse_memory_nodes memblk_rc MAX_NUMNODES nid0 pre s).1 = 0)
    (hdecl : np.props.numa_node_id ≠ .Absent)
    (hzero : np.props.reg = []) :
    (of_numa_parse_memory_nodes memblk_rc MAX_NUMNODES nid0 (pre ++ np :: post) s).1 ≠ 0 ∧
      (of_numa_parse_memory_nodes memblk_rc MAX_NUMNODES nid0 (pre ++ np :: post) s).2 =
        (of_numa_parse_memory_nodes memblk_rc MAX_NUMNODES nid0 pre s).2 := by
  simp only [of_numa_parse_memory_nodes] at hreach ⊢
  obtain ⟨nid2, happ⟩ :=
    memory_nodes_loop_append memblk_rc MAX_NUMNODES pre (np :: post) nid0 s hreach
  rw [happ, memory_nodes_loop_cons]
  have hres : resources np = [] := by simp [resources, hzero]
  have hne : (of_property_read_u32 np nid2).1 ≠ -EINVAL := by
    cases hp : np.props.numa_node_id with
    | Value v => simp [of_property_read_u32, hp, EINVAL]
    | Absent => exact absurd hp hdecl
    | Malformed e => cases e <;> simp [of_property_read_u32, hp, EINVAL, ENODATA, EOVERFLOW]
  rw [if_neg hne, hres]
  simp only [add_memblk_loop, true_or, if_true]
  exact ⟨abort_code_ne_zero _, trivial⟩

/-- The claim C7 on a node with one range followed by a declaring node with
none: the scan fails and the first node's range stays committed. -/
theorem memory_nodes_zero_ranges_fatal_witness :
    (of_numa_parse_memory_nodes (fun _ _ => 0) 4 0
        ([.root ⟨.Value 0, [(0, 4096)], none⟩] ++
          .root ⟨.Value 1, [], none⟩ :: [.root ⟨.Value 2, [(8192, 4096)], none⟩])
        TopologyState.empty).1 ≠ 0 ∧
      (of_numa_parse_memory_nodes (fun _ _ => 0) 4 0
        ([.root ⟨.Value 0, [(0, 4096)], none⟩] ++
          .root ⟨.Value 1, [], none⟩ :: [.root ⟨.Value 2, [(8192, 4096)], none⟩])
        TopologyState.empty).2.memblks = [⟨0, 0, 4096⟩] := by
  have h := memory_nodes_zero_ranges_fatal (fun _ _ => 0) 4 0
    [.root ⟨.Value 0, [(0, 4096)], none⟩] [.root ⟨.Value 2, [(8192, 4096)], none⟩]
    (.root ⟨.Value 1, [], none⟩) TopologyState.empty rfl (by simp [device_node.props]) rfl
  refine ⟨h.1, ?_⟩
  rw [h.2]
  decide

/-! ## C8: a memory node whose id is out of range -/

/-- C8: if the scan reaches a memory node (the scan of the nodes before it
returns 0) whose declared node-id is at least `MAX_NUMNODES`,
`of_numa_parse_memory_nodes` returns `-EINVAL` and ends in the state reached
before that node, so no later memory node is processed. -/
theorem memory_nodes_bad_id_fatal (memblk_rc : List MemoryRange → MemoryRange → Int)
    (MAX_NUMNODES nid0 : Nat) (pre post : List device_node) (np : device_node)
    (s : TopologyState) (v : Nat)
    (hreach : (of_numa_parse_memory_nodes memblk_rc MAX_NUMNODES nid0 pre s).1 = 0)
    (hdecl : np.props.numa_node_id = .Value v)
    (hbad : MAX_NUMNODES ≤ v) :
    (of_numa_parse_memory_nodes memblk_rc MAX_NUMNODES nid0 (pre ++ np :: post) s).1
        = -EINVAL ∧
      (of_numa_parse_memory_nodes memblk_rc MAX_NUMNODES nid0 (pre ++ np :: post) s).2 =
        (of_numa_parse_memory_nodes memblk_rc MAX_NUMNODES nid0 pre s).2 := by
  simp only [of_numa_parse_memory_nodes] at hreach ⊢
  obtain ⟨nid2, happ⟩ :=
    memory_nodes_loop_append memblk_rc MAX_NUMNODES pre (np :: post) nid0 s hreach
  rw [happ, memory_nodes_loop_cons]
  have hread : of_property_read_u32 np nid2 = (0, v) := by
    simp [of_property_read_u32, hdecl]
  have hge : v ≥ MAX_NUMNODES := hbad
  have hE : (-EINVAL : Int) ≠ 0 := by decide
  simp only [hread, hge, if_true]
  rw [if_neg (by decide), add_memblk_loop_stops _ _ _ _ _ _ hE]
  simp only [hE, ne_eq, not_false_eq_true, or_true, if_true]
  exact ⟨trivial, trivial⟩

/-- The claim C8 with `MAX_NUMNODES` 4 on a valid node followed by a node with
id 4 and by a further valid node. -/
theorem memory_nodes_bad_id_fatal_witness :
    (of_numa_parse_memory_nodes (fun _ _ => 0) 4 0
        ([.root ⟨.Value 0, [(0, 4096)], none⟩] ++
          .root ⟨.Value 4, [(4096, 4096)], none⟩ :: [.root ⟨.Value 2, [(8192, 4096)], none⟩])
        TopologyState.empty).1 = -EINVAL ∧
      (of_numa_parse_memory_nodes (fun _ _ => 0) 4 0
        ([.root ⟨.Value 0, [(0, 4096)], none⟩] ++
          .root ⟨.Value 4, [(4096, 4096)], none⟩ :: [.root ⟨.Value 2, [(8192, 4096)], none⟩])
        TopologyState.empty).2.memblk_calls = [⟨0, 0, 4096⟩] := by
  have h := memory_nodes_bad_id_fatal (fun _ _ => 0) 4 0
    [.root ⟨.Value 0, [(0, 4096)], none⟩] [.root ⟨.Value 2, [(8192, 4096)], none⟩]
    (.root ⟨.Value 4, [(4096, 4096)], none⟩) TopologyState.empty 4 rfl rfl (by decide)
  refine ⟨h.1, ?_⟩
  rw [h.2]
  decide

/-! ## Shared lemmas on the ancestor walk -/

/-- A read depends on the properties of the node only. -/
theorem of_property_read_u32_props (np : device_node) (nid : Nat) :
    of_property_read_u32 np nid = of_property_read_u32 (.root np.props) nid := rfl

/-- A read of a property that is not absent does not return `-EINVAL`. -/
theorem of_property_read_u32_present (np : device_node) (nid : Nat)
    (h : np.props.numa_node_id ≠ .Absent) : (of_property_read_u32 np nid).1 ≠ -EINVAL := by
  cases hp : np.props.numa_node_id with
  | Value v => simp [of_property_read_u32, hp, EINVAL]
  | Absent => exact absurd hp h
  | Malformed e => cases e <;> simp [of_property_read_u32, hp, EINVAL, ENODATA, EOVERFLOW]

/-- The walk ends with the read of the nearest node that has the property,
and with `-EINVAL` when no node of the chain has it. -/
theorem of_node_to_nid_walk_nearest (np : device_node) :
    ∀ nid, of_node_to_nid_walk np nid =
      match nearest_declared np with
      | some p => of_property_read_u32 (.root p) nid
      | none => (-EINVAL, nid) := by
  induction np with
  | root p =>
    intro nid
    by_cases h : p.numa_node_id = .Absent
    · simp [of_node_to_nid_walk, nearest_declared, ancestor_chain, h, of_property_read_u32,
        device_node.props]
    · simp [of_node_to_nid_walk, nearest_declared, ancestor_chain, h]
  | child p parent ih =>
    intro nid
    by_cases h : p.numa_node_id = .Absent
    · have hread : of_property_read_u32 (.child p parent) nid = (-EINVAL, nid) := by
        simp [of_property_read_u32, device_node.props, h]
      have hnear : nearest_declared (.child p parent) = nearest_declared parent := by
        simp [nearest_declared, ancestor_chain, h]
      simp only [of_node_to_nid_walk, hread, hnear, ne_eq, not_true_eq_false, if_false]
      exact ih nid
    · have hne := of_property_read_u32_present (.child p parent) nid h
      have hnear : nearest_declared (.child p parent) = some p := by
        simp [nearest_declared, ancestor_chain, h]
      simp only [of_node_to_nid_walk, hnear, ne_eq, hne, not_false_eq_true, if_true]
      rfl

/-- The result of `of_node_to_nid` in terms of the nearest declaring node. -/
theorem of_node_to_nid_cases (MAX : Nat) (possible : Nat → Bool) (nid0 : Nat)
    (np : device_node) :
    of_node_to_nid MAX possible nid0 (some np) =
      match nearest_declared np with
      | some p =>
        match p.numa_node_id with
        | .Value v => if v < MAX ∧ possible v = true then (v : Int) else NUMA_NO_NODE
        | _ => NUMA_NO_NODE
      | none => NUMA_NO_NODE := by
  simp only [of_node_to_nid, of_node_to_nid_walk_nearest]
  cases nearest_declared np with
  | none => simp [EINVAL]
  | some p =>
    cases hp : p.numa_node_id with
    | Value v => simp [of_property_read_u32, device_node.props, hp]
    | Absent => simp [of_property_read_u32, device_node.props, hp, EINVAL]
    | Malformed e =>
      cases e <;> simp [of_property_read_u32, device_node.props, hp, ENODATA, EOVERFLOW]

/-! ## C9: the public lookup -/

/-- C9: for every tree node, `of_node_to_nid` returns `v` exactly when the
nearest node on the chain node, parent, grandparent, ... whose "numa-node-id"
is not absent holds a well-formed value `v` with `v < MAX_NUMNODES` and `v` in
the possible-node set; in every other case it returns `NUMA_NO_NODE`. -/
theorem of_node_to_nid_nearest (MAX_NUMNODES : Nat) (node_possible : Nat → Bool) (nid0 : Nat)
    (np : device_node) :
    (∀ v : Nat, of_node_to_nid MAX_NUMNODES node_possible nid0 (some np) = (v : Int) ↔
        ∃ p, nearest_declared np = some p ∧ p.numa_node_id = .Value v ∧
          v < MAX_NUMNODES ∧ node_possible v = true) ∧
      ((¬ ∃ v p, nearest_declared np = some p ∧ p.numa_node_id = .Value v ∧
          v < MAX_NUMNODES ∧ node_possible v = true) →
        of_node_to_nid MAX_NUMNODES node_possible nid0 (some np) = NUMA_NO_NODE) := by
  have hc := of_node_to_nid_cases MAX_NUMNODES node_possible nid0 np
  have hno : ∀ v : Nat, NUMA_NO_NODE ≠ (v : Int) := by
    intro v h
    simp only [NUMA_NO_NODE] at h
    omega
  cases hn : nearest_declared np with
  | none =>
    simp only [hn] at hc
    rw [hc]
    refine ⟨fun v => ⟨fun h => absurd h (hno v), ?_⟩, fun _ => rfl⟩
    rintro ⟨p, hp, _⟩
    cases hp
  | some p =>
    cases hp : p.numa_node_id with
    | Value w =>
      by_cases hw : w < MAX_NUMNODES ∧ node_possible w = true
      · simp only [hn, hp, hw, and_self, if_true] at hc
        rw [hc]
        refine ⟨fun v => ⟨fun h => ?_, ?_⟩, fun h => ?_⟩
        · have hvw : w = v := by exact_mod_cast h
          subst hvw
          exact ⟨p, rfl, hp, hw.1, hw.2⟩
        · rintro ⟨q, hq, hqv, _⟩
          cases hq
          rw [hp] at hqv
          cases hqv
          rfl
        · exact absurd ⟨w, p, rfl, hp, hw.1, hw.2⟩ h
      · simp only [hn, hp, hw, if_false] at hc
        rw [hc]
        refine ⟨fun v => ⟨fun h => absurd h (hno v), ?_⟩, fun _ => rfl⟩
        rintro ⟨q, hq, hqv, h1, h2⟩
        cases hq
        rw [hp] at hqv
        cases hqv
        exact absurd ⟨h1, h2⟩ hw
    | Absent =>
      simp only [hn, hp] at hc
      rw [hc]
      refine ⟨fun v => ⟨fun h => absurd h (hno v), ?_⟩, fun _ => rfl⟩
      rintro ⟨q, hq, hqv, _⟩
      cases hq
      rw [hp] at hqv
      cases hqv
    | Malformed e =>
      simp only [hn, hp] at hc
      rw [hc]
      refine ⟨fun v => ⟨fun h => absurd h (hno v), ?_⟩, fun _ => rfl⟩
      rintro ⟨q, hq, hqv, _⟩
      cases hq
      rw [hp] at hqv
      cases hqv

/-- A processor node with no own id whose parent declares 2 resolves to 2,
with `MAX_NUMNODES` 4 and every id possible. -/
theorem of_node_to_nid_nearest_witness :
    of_node_to_nid 4 (fun _ => true) 0
      (some (.child ⟨.Absent, [], none⟩ (.root ⟨.Value 2, [], none⟩))) = ((2 : Nat) : Int) :=
  ((of_node_to_nid_nearest 4 (fun _ => true) 0
      (.child ⟨.Absent, [], none⟩ (.root ⟨.Value 2, [], none⟩))).1 2).mpr
    ⟨⟨.Value 2, [], none⟩, rfl, rfl, by decide, rfl⟩

/-! ## C10: a malformed property ends the walk -/

/-- C10: if the first node on the self-then-ancestors chain whose
"numa-node-id" is not absent has a malformed property, the walk of
`of_node_to_nid` ends with the failed read of that node and the function
returns `NUMA_NO_NODE`, whatever the ancestors above that node declare. -/
theorem of_node_to_nid_malformed (MAX_NUMNODES : Nat) (node_possible : Nat → Bool)
    (nid0 : Nat) (np : device_node) (p : node_props) (e : PropError)
    (hnear : nearest_declared np = some p) (hmal : p.numa_node_id = .Malformed e) :
    of_node_to_nid_walk np nid0 = of_property_read_u32 (.root p) nid0 ∧
      (of_node_to_nid_walk np nid0).1 ≠ 0 ∧
      of_node_to_nid MAX_NUMNODES node_possible nid0 (some np) = NUMA_NO_NODE := by
  refine ⟨?_, ?_, ?_⟩
  · rw [of_node_to_nid_walk_nearest, hnear]
  · rw [of_node_to_nid_walk_nearest, hnear]
    cases e <;> simp [of_property_read_u32, device_node.props, hmal, ENODATA, EOVERFLOW]
  · rw [of_node_to_nid_cases, hnear]
    simp only [hmal]

/-- The claim C10 on a node without the property whose parent has a malformed
property and whose grandparent declares the valid, possible id 2. -/
theorem of_node_to_nid_malformed_witness :
    of_node_to_nid 4 (fun _ => true) 0
      (some (.child ⟨.Absent, [], none⟩
        (.child ⟨.Malformed .Overflow, [], none⟩ (.root ⟨.Value 2, [], none⟩)))) =
      NUMA_NO_NODE :=
  (of_node_to_nid_malformed 4 (fun _ => true) 0
    (.child ⟨.Absent, [], none⟩
      (.child ⟨.Malformed .Overflow, [], none⟩ (.root ⟨.Value 2, [], none⟩)))
    ⟨.Malformed .Overflow, [], none⟩ .Overflow rfl rfl).2.2

/-! ## Shared lemmas: what each pass leaves alone -/

/-- The processor scan writes the node mask only. -/
theorem cpu_nodes_loop_frame (MAX : Nat) (cpus : List device_node) :
    ∀ (nid : Nat) (s : TopologyState),
      (cpu_nodes_loop MAX cpus nid s).numa_distance = s.numa_distance ∧
      (cpu_nodes_loop MAX cpus nid s).memblks = s.memblks ∧
      (cpu_nodes_loop MAX cpus nid s).memblk_calls = s.memblk_calls := by
  induction cpus with
  | nil => intro nid s; exact ⟨rfl, rfl, rfl⟩
  | cons np rest ih =>
    intro nid s
    simp only [cpu_nodes_loop]
    split
    · exact ih _ _
    · split
      · exact ih _ _
      · exact ih _ (node_set _ s)

/-- The inner loop of the memory scan writes the registry only. -/
theorem add_memblk_loop_frame (rc : List MemoryRange → MemoryRange → Int) (nid : Nat)
    (rs : List resource) :
    ∀ (i : Nat) (r : Int) (s : TopologyState),
      (add_memblk_loop rc nid rs i r s).2.2.numa_nodes_parsed = s.numa_nodes_parsed ∧
      (add_memblk_loop rc nid rs i r s).2.2.numa_distance = s.numa_distance := by
  induction rs with
  | nil => intro i r s; exact ⟨rfl, rfl⟩
  | cons x rest ih =>
    intro i r s
    simp only [add_memblk_loop]
    split
    · exact ⟨rfl, rfl⟩
    · simp only [numa_add_memblk]
      split
      · exact ih _ _ _
      · exact ih _ _ _

/-- The memory scan writes the registry only. -/
theorem memory_nodes_loop_frame (rc : List MemoryRange → MemoryRange → Int) (MAX : Nat)
    (mems : List device_node) :
    ∀ (nid : Nat) (s : TopologyState),
      (memory_nodes_loop rc MAX mems nid s).2.numa_nodes_parsed = s.numa_nodes_parsed ∧
      (memory_nodes_loop rc MAX mems nid s).2.numa_distance = s.numa_distance := by
  induction mems with
  | nil => intro nid s; exact ⟨rfl, rfl⟩
  | cons np rest ih =>
    intro nid s
    rw [memory_nodes_loop_cons]
    generalize of_property_read_u32 np nid = rd
    obtain ⟨r, nid1⟩ := rd
    simp only
    by_cases hr : r = -EINVAL
    · simp only [if_pos hr]
      exact ih _ _
    · simp only [if_neg hr]
      have hf := add_memblk_loop_frame rc nid1 (resources np) 0
        (if nid1 ≥ MAX then -EINVAL else r) s
      generalize add_memblk_loop rc nid1 (resources np) 0
        (if nid1 ≥ MAX then -EINVAL else r) s = out at hf ⊢
      obtain ⟨i, r2, s2⟩ := out
      simp only at hf ⊢
      by_cases hbad : i = 0 ∨ r2 ≠ 0
      · simp only [if_pos hbad]
        exact hf
      · simp only [if_neg hbad]
        have h2 := ih nid1 s2
        exact ⟨h2.1.trans hf.1, h2.2.trans hf.2⟩

/-- One loop iteration of the distance-map parse leaves the registry alone. -/
theorem commit_triple_frame (t : Nat × Nat × Nat) (s : TopologyState) :
    (commit_triple t s).memblks = s.memblks ∧
      (commit_triple t s).memblk_calls = s.memblk_calls := by
  simp only [commit_triple]
  split <;> exact ⟨rfl, rfl⟩

/-- The distance-map loop leaves the registry alone. -/
theorem distance_map_loop_frame (LD : Nat) (cells : List Nat) :
    ∀ s, (distance_map_loop LD cells s).2.memblks = s.memblks ∧
      (distance_map_loop LD cells s).2.memblk_calls = s.memblk_calls := by
  induction cells using cells_induction with
  | h0 => intro s; exact ⟨rfl, rfl⟩
  | h1 a => intro s; exact ⟨rfl, rfl⟩
  | h2 a b => intro s; exact ⟨rfl, rfl⟩
  | h3 a b d rest ih =>
    intro s
    rw [distance_map_loop_cons]
    split
    · exact ⟨rfl, rfl⟩
    · have h1 := ih (commit_triple (a, b, d) s)
      have h2 := commit_triple_frame (a, b, d) s
      exact ⟨h1.1.trans h2.1, h1.2.trans h2.2⟩

/-! ## C11: the order of the passes in `of_numa_init` -/

/-- C11: `of_numa_init` applies the processor scan, then the memory scan, then
the distance-map parse. If the memory scan fails, `of_numa_init` returns that
error in the state the memory scan reached, the distance matrix is the initial
one and the node set is the initial one united with the ids of the processor
scan. Otherwise it returns the result of the distance-map parse run from the
state after the memory scan. So it returns 0 exactly when both the memory scan
and the distance-map parse return 0. -/
theorem of_numa_init_order (memblk_rc : List MemoryRange → MemoryRange → Int)
    (MAX_NUMNODES LOCAL_DISTANCE nid_cpu0 nid_mem0 : Nat) (tree : device_tree)
    (s : TopologyState) :
    ((of_numa_parse_memory_nodes memblk_rc MAX_NUMNODES nid_mem0 tree.memory_nodes
          (of_numa_parse_cpu_nodes MAX_NUMNODES nid_cpu0 tree.cpu_nodes s)).1 ≠ 0 →
        of_numa_init memblk_rc MAX_NUMNODES LOCAL_DISTANCE nid_cpu0 nid_mem0 tree s =
          of_numa_parse_memory_nodes memblk_rc MAX_NUMNODES nid_mem0 tree.memory_nodes
            (of_numa_parse_cpu_nodes MAX_NUMNODES nid_cpu0 tree.cpu_nodes s) ∧
        (of_numa_init memblk_rc MAX_NUMNODES LOCAL_DISTANCE nid_cpu0 nid_mem0 tree
          s).2.numa_distance = s.numa_distance ∧
        (of_numa_init memblk_rc MAX_NUMNODES LOCAL_DISTANCE nid_cpu0 nid_mem0 tree
          s).2.numa_nodes_parsed =
            s.numa_nodes_parsed ∪ (cpu_declared_ids MAX_NUMNODES tree.cpu_nodes).toFinset) ∧
      ((of_numa_parse_memory_nodes memblk_rc MAX_NUMNODES nid_mem0 tree.memory_nodes
          (of_numa_parse_cpu_nodes MAX_NUMNODES nid_cpu0 tree.cpu_nodes s)).1 = 0 →
        of_numa_init memblk_rc MAX_NUMNODES LOCAL_DISTANCE nid_cpu0 nid_mem0 tree s =
          of_numa_parse_distance_map LOCAL_DISTANCE tree
            (of_numa_parse_memory_nodes memblk_rc MAX_NUMNODES nid_mem0 tree.memory_nodes
              (of_numa_parse_cpu_nodes MAX_NUMNODES nid_cpu0 tree.cpu_nodes s)).2) ∧
      ((of_numa_init memblk_rc MAX_NUMNODES LOCAL_DISTANCE nid_cpu0 nid_mem0 tree s).1 = 0 ↔
        (of_numa_parse_memory_nodes memblk_rc MAX_NUMNODES nid_mem0 tree.memory_nodes
          (of_numa_parse_cpu_nodes MAX_NUMNODES nid_cpu0 tree.cpu_nodes s)).1 = 0 ∧
        (of_numa_parse_distance_map LOCAL_DISTANCE tree
          (of_numa_parse_memory_nodes memblk_rc MAX_NUMNODES nid_mem0 tree.memory_nodes
            (of_numa_parse_cpu_nodes MAX_NUMNODES nid_cpu0 tree.cpu_nodes s)).2).1 = 0) := by
  have hfm := memory_nodes_loop_frame memblk_rc MAX_NUMNODES tree.memory_nodes nid_mem0
    (of_numa_parse_cpu_nodes MAX_NUMNODES nid_cpu0 tree.cpu_nodes s)
  have hfc := cpu_nodes_loop_frame MAX_NUMNODES tree.cpu_nodes nid_cpu0 s
  have hpc := cpu_nodes_loop_parsed MAX_NUMNODES tree.cpu_nodes nid_cpu0 s
  simp only [of_numa_init]
  simp only [of_numa_parse_memory_nodes] at hfm ⊢
  generalize memory_nodes_loop memblk_rc MAX_NUMNODES tree.memory_nodes nid_mem0
    (of_numa_parse_cpu_nodes MAX_NUMNODES nid_cpu0 tree.cpu_nodes s) = m at hfm ⊢
  obtain ⟨r, s2⟩ := m
  simp only at hfm ⊢
  refine ⟨fun hr => ?_, fun hr => ?_, ?_⟩
  · simp only [ne_eq, hr, not_false_eq_true, if_true, true_and]
    refine ⟨hfm.2.trans hfc.1, hfm.1.trans hpc⟩
  · simp only [hr, ne_eq, not_true_eq_false, if_false]
  · by_cases hr : r = 0
    · simp only [hr, ne_eq, not_true_eq_false, if_false, true_and]
    · simp only [ne_eq, hr, not_false_eq_true, if_true, false_and]

/-- The claim C11 on a tree whose memory node has no address range: the error
of the memory scan is returned, the distance matrix stays empty and the node
set holds the processor ids only, although the tree has a distance map. -/
theorem of_numa_init_order_witness :
    (of_numa_init (fun _ _ => 0) 4 10 0 0
        ⟨[.root ⟨.Value 1, [], none⟩], [.root ⟨.Value 0, [], none⟩],
          some (distance_map_node [2, 3, 20])⟩ TopologyState.empty).1 = -EINVAL ∧
      (of_numa_init (fun _ _ => 0) 4 10 0 0
        ⟨[.root ⟨.Value 1, [], none⟩], [.root ⟨.Value 0, [], none⟩],
          some (distance_map_node [2, 3, 20])⟩ TopologyState.empty).2.numa_distance =
        TopologyState.empty.numa_distance ∧
      (of_numa_init (fun _ _ => 0) 4 10 0 0
        ⟨[.root ⟨.Value 1, [], none⟩], [.root ⟨.Value 0, [], none⟩],
          some (distance_map_node [2, 3, 20])⟩ TopologyState.empty).2.numa_nodes_parsed =
        {1} := by
  have h := (of_numa_init_order (fun _ _ => 0) 4 10 0 0
    ⟨[.root ⟨.Value 1, [], none⟩], [.root ⟨.Value 0, [], none⟩],
      some (distance_map_node [2, 3, 20])⟩ TopologyState.empty).1 (by decide)
  refine ⟨?_, h.2.1, ?_⟩
  · rw [h.1]
    decide
  · rw [h.2.2]
    decide

/-! ## C12: a tree without a distance map -/

/-- C12: for every tree that has no node compatible with
"numa-distance-map-v1" and every state, `of_numa_parse_distance_map` returns 0
and leaves the state, in particular the node set and the distance matrix,
unchanged. -/
theorem parse_distance_map_absent (LOCAL_DISTANCE : Nat) (tree : device_tree)
    (s : TopologyState) (hnone : tree.distance_map = none) :
    (of_numa_parse_distance_map LOCAL_DISTANCE tree s).1 = 0 ∧
      (of_numa_parse_distance_map LOCAL_DISTANCE tree s).2.numa_nodes_parsed =
        s.numa_nodes_parsed ∧
      (of_numa_parse_distance_map LOCAL_DISTANCE tree s).2.numa_distance = s.numa_distance ∧
      (of_numa_parse_distance_map LOCAL_DISTANCE tree s).2 = s := by
  simp only [of_numa_parse_distance_map, hnone]
  exact ⟨trivial, trivial, trivial, trivial⟩

/-- The claim C12 on a tree with a processor and a memory node but no distance
map, from a state that already holds a distance. -/
theorem parse_distance_map_absent_witness :
    (of_numa_parse_distance_map 10
        ⟨[.root ⟨.Value 1, [], none⟩], [.root ⟨.Value 0, [(0, 4096)], none⟩], none⟩
        (numa_set_distance 0 1 20 (node_set 0 TopologyState.empty))).1 = 0 ∧
      (of_numa_parse_distance_map 10
        ⟨[.root ⟨.Value 1, [], none⟩], [.root ⟨.Value 0, [(0, 4096)], none⟩], none⟩
        (numa_set_distance 0 1 20 (node_set 0 TopologyState.empty))).2 =
        numa_set_distance 0 1 20 (node_set 0 TopologyState.empty) :=
  ⟨(parse_distance_map_absent 10
      ⟨[.root ⟨.Value 1, [], none⟩], [.root ⟨.Value 0, [(0, 4096)], none⟩], none⟩
      (numa_set_distance 0 1 20 (node_set 0 TopologyState.empty)) rfl).1,
   (parse_distance_map_absent 10
      ⟨[.root ⟨.Value 1, [], none⟩], [.root ⟨.Value 0, [(0, 4096)], none⟩], none⟩
      (numa_set_distance 0 1 20 (node_set 0 TopologyState.empty)) rfl).2.2.2⟩

/-! ## C13: the end-to-end scenario -/

/-- C13: for the tree with two processors (node-id 0 and 1), one memory node
(node-id 0, one range of start 0x0 and length 0x40000000) and the distance map
`<0 0 10> <0 1 20> <1 0 20> <1 1 10>`, with `MAX_NUMNODES` at least 2,
`LOCAL_DISTANCE` 10 and a registry that accepts every commit, `of_numa_init`
run from the empty state returns 0 and yields the node set `{0, 1}`, exactly
one committed range `(0, 0x0, 0x40000000)` and
`distance(0, 1) = distance(1, 0) = 20`. -/
theorem of_numa_init_end_to_end (memblk_rc : List MemoryRange → MemoryRange → Int)
    (MAX_NUMNODES nid_cpu0 nid_mem0 : Nat) (hmax : 2 ≤ MAX_NUMNODES)
    (hrc : ∀ reg rng, memblk_rc reg rng = 0) :
    (of_numa_init memblk_rc MAX_NUMNODES 10 nid_cpu0 nid_mem0 end_to_end_tree
        TopologyState.empty).1 = 0 ∧
      (of_numa_init memblk_rc MAX_NUMNODES 10 nid_cpu0 nid_mem0 end_to_end_tree
        TopologyState.empty).2.numa_nodes_parsed = {0, 1} ∧
      (of_numa_init memblk_rc MAX_NUMNODES 10 nid_cpu0 nid_mem0 end_to_end_tree
        TopologyState.empty).2.memblks = [⟨0, 0, 1073741824⟩] ∧
      (of_numa_init memblk_rc MAX_NUMNODES 10 nid_cpu0 nid_mem0 end_to_end_tree
        TopologyState.empty).2.numa_distance 0 1 = some 20 ∧
      (of_numa_init memblk_rc MAX_NUMNODES 10 nid_cpu0 nid_mem0 end_to_end_tree
        TopologyState.empty).2.numa_distance 1 0 = some 20 := by
  have h0 : ¬ (0 ≥ MAX_NUMNODES) := by omega
  have h1 : ¬ (1 ≥ MAX_NUMNODES) := by omega
  have hcpu : of_numa_parse_cpu_nodes MAX_NUMNODES nid_cpu0 end_to_end_tree.cpu_nodes
      TopologyState.empty = node_set 1 (node_set 0 TopologyState.empty) := by
    simp only [of_numa_parse_cpu_nodes, end_to_end_tree, cpu_nodes_loop, of_property_read_u32,
      device_node.props, ne_eq, not_true_eq_false, if_false, h0, h1]
  have hmem : of_numa_parse_memory_nodes memblk_rc MAX_NUMNODES nid_mem0
      end_to_end_tree.memory_nodes (node_set 1 (node_set 0 TopologyState.empty)) =
      (0, commit_all (declared_ranges end_to_end_tree.memory_nodes)
        (node_set 1 (node_set 0 TopologyState.empty))) := by
    apply memory_nodes_loop_all memblk_rc MAX_NUMNODES hrc
    intro np hnp
    simp only [end_to_end_tree, List.mem_singleton] at hnp
    subst hnp
    exact Or.inr ⟨0, rfl, by omega, by simp [device_node.props]⟩
  have hinit : of_numa_init memblk_rc MAX_NUMNODES 10 nid_cpu0 nid_mem0 end_to_end_tree
      TopologyState.empty =
      of_numa_parse_distance_map 10 end_to_end_tree
        (commit_all (declared_ranges end_to_end_tree.memory_nodes)
          (node_set 1 (node_set 0 TopologyState.empty))) := by
    simp only [of_numa_init, hcpu, hmem, ne_eq, not_true_eq_false, if_false]
  rw [hinit]
  refine ⟨by decide, by decide, by decide, by decide, by decide⟩

/-- The end-to-end scenario with `MAX_NUMNODES` 2 and a registry that always
answers 0. -/
theorem of_numa_init_end_to_end_witness :
    (of_numa_init (fun _ _ => 0) 2 10 0 0 end_to_end_tree TopologyState.empty).1 = 0 ∧
      (of_numa_init (fun _ _ => 0) 2 10 0 0 end_to_end_tree
        TopologyState.empty).2.numa_nodes_parsed = {0, 1} ∧
      (of_numa_init (fun _ _ => 0) 2 10 0 0 end_to_end_tree
        TopologyState.empty).2.memblks = [⟨0, 0, 1073741824⟩] ∧
      (of_numa_init (fun _ _ => 0) 2 10 0 0 end_to_end_tree
        TopologyState.empty).2.numa_distance 0 1 = some 20 ∧
      (of_numa_init (fun _ _ => 0) 2 10 0 0 end_to_end_tree
        TopologyState.empty).2.numa_distance 1 0 = some 20 :=
  of_numa_init_end_to_end (fun _ _ => 0) 2 0 0 (by decide) (fun _ _ => rfl)

/-! ## Shared lemmas: the distance-map loop as a sequence of commits -/

/-- When every encoded triple passes the check, the loop returns 0 in the state
that the commits of the triples produce. -/
theorem distance_map_loop_commits (LD : Nat) (cells : List Nat) :
    (∀ t ∈ triples_of cells, ¬ invalid_triple LD t) →
      ∀ s, distance_map_loop LD cells s = (0, commit_triples (triples_of cells) s) := by
  induction cells using cells_induction with
  | h0 => intro _ s; rfl
  | h1 a => intro _ s; rfl
  | h2 a b => intro _ s; rfl
  | h3 a b d rest ih =>
    intro h s
    rw [distance_map_loop_cons]
    have hv : ¬ invalid_triple LD (a, b, d) := h (a, b, d) (by simp [triples_of])
    simp only [hv, if_false, triples_of, commit_triples]
    exact ih (fun t ht => h t (by simp [triples_of, ht])) _

/-- The loop stops at the first triple that breaks the distance rule, in the
state that the commits of the triples before it produce. -/
theorem distance_map_loop_first_invalid (LD : Nat) (cells : List Nat)
    (pre post : List (Nat × Nat × Nat)) (t : Nat × Nat × Nat)
    (hts : triples_of cells = pre ++ t :: post)
    (hpre : ∀ u ∈ pre, ¬ invalid_triple LD u) (ht : invalid_triple LD t) (s : TopologyState) :
    distance_map_loop LD cells s = (-EINVAL, commit_triples pre s) := by
  obtain ⟨a, b, d⟩ := t
  rw [← distance_map_loop_encode, hts, encode_triples_append, distance_map_loop_append]
  have hp : distance_map_loop LD (encode_triples pre) s = (0, commit_triples pre s) := by
    have h := distance_map_loop_commits LD (encode_triples pre)
      (by rw [triples_of_encode]; exact hpre) s
    rw [triples_of_encode] at h
    exact h
  rw [hp]
  simp only [if_true, encode_triples, distance_map_loop_cons, ht]

/-- A successful loop has met no triple that breaks the distance rule. -/
theorem distance_map_loop_ok_valid (LD : Nat) (cells : List Nat) (s : TopologyState)
    (hok : (distance_map_loop LD cells s).1 = 0) :
    ∀ t ∈ triples_of cells, ¬ invalid_triple LD t := by
  intro t ht hbad
  have h := distance_map_loop_invalid LD t hbad cells ht s
  rw [hok] at h
  exact absurd h (by decide)

/-- The node mask after the commits of a sequence of triples. -/
theorem commit_triples_parsed (ts : List (Nat × Nat × Nat)) :
    ∀ s, (commit_triples ts s).numa_nodes_parsed =
      s.numa_nodes_parsed ∪ (ts.map (fun t => t.1)).toFinset := by
  induction ts with
  | nil => intro s; simp [commit_triples]
  | cons t rest ih =>
    intro s
    have h1 : (commit_triple t s).numa_nodes_parsed = insert t.1 s.numa_nodes_parsed := by
      simp only [commit_triple]
      split <;> rfl
    simp only [commit_triples, ih, h1, List.map_cons, List.toFinset_cons]
    ext n
    simp only [Finset.mem_union, Finset.mem_insert]
    tauto

/-- The commit of a triple that passes the check keeps the distance invariant. -/
theorem commit_triple_invariant (LD : Nat) (t : Nat × Nat × Nat) (s : TopologyState)
    (hv : ¬ invalid_triple LD t) (hs : distance_invariant LD s) :
    distance_invariant LD (commit_triple t s) := by
  obtain ⟨a, b, d⟩ := t
  intro x y e he
  rw [commit_triple_distance] at he
  by_cases hw : writes_entry x y (a, b, d)
  · rw [if_pos hw] at he
    simp only [Option.some.injEq] at he
    simp only [invalid_triple, not_or, not_and, not_not, not_le] at hv
    simp only [writes_entry] at hw
    obtain ⟨hv1, hv2⟩ := hv
    rcases hw with ⟨h1, h2⟩ | ⟨h0, h1, h2⟩
    · refine ⟨fun h => ?_, fun h => ?_⟩
      · have := hv1 (by omega)
        omega
      · have := hv2 (by omega)
        omega
    · refine ⟨fun h => ?_, fun _ => ?_⟩
      · omega
      · have := hv2 (by omega)
        omega
  · rw [if_neg hw] at he
    exact hs x y e he

/-- The loop keeps the distance invariant, whether it succeeds or fails. -/
theorem distance_map_loop_invariant (LD : Nat) (cells : List Nat) :
    ∀ s, distance_invariant LD s → distance_invariant LD (distance_map_loop LD cells s).2 := by
  induction cells using cells_induction with
  | h0 => intro s hs; exact hs
  | h1 a => intro s hs; exact hs
  | h2 a b => intro s hs; exact hs
  | h3 a b d rest ih =>
    intro s hs
    rw [distance_map_loop_cons]
    by_cases hv : invalid_triple LD (a, b, d)
    · simp only [hv, if_true]
      exact hs
    · simp only [hv, if_false]
      exact ih _ (commit_triple_invariant LD (a, b, d) s hv hs)

/-! ## C14: no rollback after an invalid triple -/

/-- C14: for every distance matrix whose first triple that breaks the distance
rule stands after the triples `pre` (at position `pre.length`),
`of_numa_parse_distance_map_v1` fails with `-EINVAL` and ends in exactly the
state obtained by applying the triples `pre`: their writes to the node set and
to the distance matrix remain, and nothing of the invalid triple or of a later
one is written. That state is also the one in which the loop over the triples
`pre` alone succeeds. -/
theorem distance_map_v1_no_rollback (LOCAL_DISTANCE : Nat) (map : device_node)
    (s : TopologyState) (cells : List Nat) (pre post : List (Nat × Nat × Nat))
    (t : Nat × Nat × Nat)
    (hmap : map.props.distance_matrix = some cells)
    (hts : triples_of cells = pre ++ t :: post)
    (hpre : ∀ u ∈ pre, ¬ invalid_triple LOCAL_DISTANCE u)
    (ht : invalid_triple LOCAL_DISTANCE t) :
    (of_numa_parse_distance_map_v1 LOCAL_DISTANCE map s).1 = -EINVAL ∧
      (of_numa_parse_distance_map_v1 LOCAL_DISTANCE map s).2 = commit_triples pre s ∧
      (of_numa_parse_distance_map_v1 LOCAL_DISTANCE map s).2.numa_nodes_parsed =
        s.numa_nodes_parsed ∪ (pre.map (fun u => u.1)).toFinset ∧
      distance_map_loop LOCAL_DISTANCE (encode_triples pre) s =
        (0, (of_numa_parse_distance_map_v1 LOCAL_DISTANCE map s).2) := by
  have hne : cells ≠ [] := by
    intro h
    rw [h] at hts
    simp [triples_of] at hts
  rw [parse_distance_map_v1_cells LOCAL_DISTANCE map s cells hmap hne,
    distance_map_loop_first_invalid LOCAL_DISTANCE cells pre post t hts hpre ht s]
  refine ⟨rfl, rfl, commit_triples_parsed pre s, ?_⟩
  have h := distance_map_loop_commits LOCAL_DISTANCE (encode_triples pre)
    (by rw [triples_of_encode]; exact hpre) s
  rw [triples_of_encode] at h
  exact h

/-- The claim C14 on `<0 1 20> <1 1 15> <2 3 30>` with `LOCAL_DISTANCE` 10: the
parse fails at the second triple, the writes of the first remain and the third
is not written. -/
theorem distance_map_v1_no_rollback_witness :
    (of_numa_parse_distance_map_v1 10 (distance_map_node [0, 1, 20, 1, 1, 15, 2, 3, 30])
        TopologyState.empty).1 = -EINVAL ∧
      (of_numa_parse_distance_map_v1 10 (distance_map_node [0, 1, 20, 1, 1, 15, 2, 3, 30])
        TopologyState.empty).2.numa_distance 1 0 = some 20 ∧
      (of_numa_parse_distance_map_v1 10 (distance_map_node [0, 1, 20, 1, 1, 15, 2, 3, 30])
        TopologyState.empty).2.numa_distance 2 3 = none ∧
      (of_numa_parse_distance_map_v1 10 (distance_map_node [0, 1, 20, 1, 1, 15, 2, 3, 30])
        TopologyState.empty).2.numa_nodes_parsed = {0} := by
  have h := distance_map_v1_no_rollback 10
    (distance_map_node [0, 1, 20, 1, 1, 15, 2, 3, 30]) TopologyState.empty
    [0, 1, 20, 1, 1, 15, 2, 3, 30] [(0, 1, 20)] [(2, 3, 30)] (1, 1, 15) rfl rfl
    (by decide) (by decide)
  refine ⟨h.1, ?_, ?_, ?_⟩
  · rw [h.2.1]; decide
  · rw [h.2.1]; decide
  · rw [h.2.2.1]; decide

/-! ## C15: the distance invariant is preserved -/

/-- C15: on every input, whether the call succeeds or fails, if before
`of_numa_parse_distance_map_v1` every recorded entry has
`distance(a, a) = LOCAL_DISTANCE` and `distance(a, b) > LOCAL_DISTANCE` for
`a ≠ b`, the same holds for every recorded entry after the call, the mirrored
entries included. -/
theorem distance_map_v1_invariant (LOCAL_DISTANCE : Nat) (map : device_node)
    (s : TopologyState) (hinv : distance_invariant LOCAL_DISTANCE s) :
    distance_invariant LOCAL_DISTANCE (of_numa_parse_distance_map_v1 LOCAL_DISTANCE map s).2 := by
  cases hm : map.props.distance_matrix with
  | none =>
    rw [parse_distance_map_v1_no_cells LOCAL_DISTANCE map s (Or.inl hm)]
    exact hinv
  | some cells =>
    by_cases hne : cells = []
    · rw [parse_distance_map_v1_no_cells LOCAL_DISTANCE map s (Or.inr (hne ▸ hm))]
      exact hinv
    · rw [parse_distance_map_v1_cells LOCAL_DISTANCE map s cells hm hne]
      exact distance_map_loop_invariant LOCAL_DISTANCE cells s hinv

/-- The claim C15 from a matrix that holds `distance(5, 6) = 40`, on
`<0 0 10> <0 1 20> <2 1 30> <3 3 7>`, a parse that writes three triples and
then fails. -/
theorem distance_map_v1_invariant_witness :
    distance_invariant 10
      (of_numa_parse_distance_map_v1 10
        (distance_map_node [0, 0, 10, 0, 1, 20, 2, 1, 30, 3, 3, 7])
        (numa_set_distance 5 6 40 TopologyState.empty)).2 :=
  distance_map_v1_invariant 10 (distance_map_node [0, 0, 10, 0, 1, 20, 2, 1, 30, 3, 3, 7])
    (numa_set_distance 5 6 40 TopologyState.empty) (by
      intro a b d h
      simp only [numa_set_distance, TopologyState.empty] at h
      split at h
      · rename_i hab
        simp only [Option.some.injEq] at h
        constructor
        · intro he
          omega
        · intro _
          omega
      · simp at h)

/-! ## C16: the node set after the distance-map parse -/

/-- C16: for every distance matrix on which `of_numa_parse_distance_map_v1`
succeeds and every initial node set `S`, the resulting set is `S` united with
exactly the `node_a` values of the triples; so a `node_b` value that is in the
resulting set was in `S` or is the `node_a` of some triple. -/
theorem distance_map_v1_parsed_nodes (LOCAL_DISTANCE : Nat) (map : device_node)
    (s : TopologyState) (cells : List Nat)
    (hmap : map.props.distance_matrix = some cells)
    (hok : (of_numa_parse_distance_map_v1 LOCAL_DISTANCE map s).1 = 0) :
    (of_numa_parse_distance_map_v1 LOCAL_DISTANCE map s).2.numa_nodes_parsed =
        s.numa_nodes_parsed ∪ ((triples_of cells).map (fun t => t.1)).toFinset ∧
      (∀ t ∈ triples_of cells,
        t.2.1 ∈ (of_numa_parse_distance_map_v1 LOCAL_DISTANCE map s).2.numa_nodes_parsed →
        t.2.1 ∈ s.numa_nodes_parsed ∨ ∃ u ∈ triples_of cells, u.1 = t.2.1) := by
  have hne : cells ≠ [] := by
    intro h
    rw [parse_distance_map_v1_no_cells LOCAL_DISTANCE map s (Or.inr (h ▸ hmap))] at hok
    have hE : (-EINVAL : Int) ≠ 0 := by decide
    exact hE hok
  rw [parse_distance_map_v1_cells LOCAL_DISTANCE map s cells hmap hne] at hok ⊢
  rw [distance_map_loop_commits LOCAL_DISTANCE cells
    (distance_map_loop_ok_valid LOCAL_DISTANCE cells s hok) s]
  refine ⟨commit_triples_parsed _ s, ?_⟩
  intro t _ hin
  rw [commit_triples_parsed] at hin
  simp only [Finset.mem_union, List.mem_toFinset, List.mem_map] at hin
  rcases hin with h | ⟨u, hu, hu1⟩
  · exact Or.inl h
  · exact Or.inr ⟨u, hu, hu1⟩

/-- The claim C16 on `<0 1 20> <0 2 30>` from the set `{5}`: the result is
`{0, 5}`, and neither `node_b` value, 1 or 2, is added. -/
theorem distance_map_v1_parsed_nodes_witness :
    (of_numa_parse_distance_map_v1 10 (distance_map_node [0, 1, 20, 0, 2, 30])
        (node_set 5 TopologyState.empty)).2.numa_nodes_parsed = {0, 5} := by
  rw [(distance_map_v1_parsed_nodes 10 (distance_map_node [0, 1, 20, 0, 2, 30])
    (node_set 5 TopologyState.empty) [0, 1, 20, 0, 2, 30] rfl (by decide)).1]
  decide

/-! ## C17: node ids in the node set after `of_numa_init` -/

/-- C17, evaluated at the failing input: with `MAX_NUMNODES` 4 and
`LOCAL_DISTANCE` 10, on the tree whose only content is the distance map
`<4 4 10>`, `of_numa_init` run from the empty state returns 0 and the node set
holds the id 4, which is not below `MAX_NUMNODES`. On the tree whose only
content is a processor with node-id 4 the node set stays empty: the processor
scan compares the id with `MAX_NUMNODES`, the distance-map parse does not. -/
theorem of_numa_init_distance_map_id_unchecked :
    ((of_numa_init (fun _ _ => 0) 4 10 0 0
        ⟨[], [], some (distance_map_node [4, 4, 10])⟩ TopologyState.empty).1 = 0 ∧
      4 ∈ (of_numa_init (fun _ _ => 0) 4 10 0 0
        ⟨[], [], some (distance_map_node [4, 4, 10])⟩
        TopologyState.empty).2.numa_nodes_parsed ∧
      ¬ (4 < 4)) ∧
    (of_numa_init (fun _ _ => 0) 4 10 0 0
        ⟨[.root ⟨.Value 4, [], none⟩], [], none⟩ TopologyState.empty).2.numa_nodes_parsed
      = ∅ := by
  refine ⟨⟨by decide, by decide, by decide⟩, by decide⟩

/-! ## C18: the address ranges of a memory node whose id is out of range -/

/-- An iteration on a node whose id is at least `MAX_NUMNODES` returns
`-EINVAL` without any write. -/
theorem memory_nodes_loop_bad_id (rc : List MemoryRange → MemoryRange → Int) (MAX : Nat)
    (np : device_node) (rest : List device_node) (nid : Nat) (s : TopologyState) (v : Nat)
    (hv : np.props.numa_node_id = .Value v) (hbad : MAX ≤ v) :
    memory_nodes_loop rc MAX (np :: rest) nid s = (-EINVAL, s) := by
  rw [memory_nodes_loop_cons]
  have hread : of_property_read_u32 np nid = (0, v) := by
    simp [of_property_read_u32, hv]
  have hge : v ≥ MAX := hbad
  have hE : (-EINVAL : Int) ≠ 0 := by decide
  simp only [hread, hge, if_true]
  rw [if_neg (by decide), add_memblk_loop_stops _ _ _ _ _ _ hE]
  simp only [hE, ne_eq, not_false_eq_true, or_true, if_true]

/-- C18, as stated, fails: with `MAX_NUMNODES` 4, on a memory node with
node-id 4 and the address range of start 0 and length 4096, the scan returns
`-EINVAL`, the registry stays empty and `numa_add_memblk` is not called at
all, although the node declares the range `(4, 0, 4096)`. -/
theorem memory_nodes_bad_id_ranges_not_committed :
    (⟨4, 0, 4096⟩ : MemoryRange) ∈
        node_declared_ranges (.root ⟨.Value 4, [(0, 4096)], none⟩) ∧
      (of_numa_parse_memory_nodes (fun _ _ => 0) 4 0
        [.root ⟨.Value 4, [(0, 4096)], none⟩] TopologyState.empty).1 = -EINVAL ∧
      (of_numa_parse_memory_nodes (fun _ _ => 0) 4 0
        [.root ⟨.Value 4, [(0, 4096)], none⟩] TopologyState.empty).2.memblks = [] ∧
      (of_numa_parse_memory_nodes (fun _ _ => 0) 4 0
        [.root ⟨.Value 4, [(0, 4096)], none⟩] TopologyState.empty).2.memblk_calls = [] := by
  refine ⟨by decide, by decide, by decide, by decide⟩

/-- C18, amended: if the scan reaches a memory node (the scan of the nodes
before it returns 0) whose declared node-id is at least `MAX_NUMNODES` and
which has one or more address ranges, `of_numa_parse_memory_nodes` aborts with
`-EINVAL` without processing that node's address ranges: `numa_add_memblk` is
not called for any of them, and the registry holds exactly what the earlier
nodes committed. -/
theorem memory_nodes_bad_id_no_commit (memblk_rc : List MemoryRange → MemoryRange → Int)
    (MAX_NUMNODES nid0 : Nat) (pre post : List device_node) (np : device_node)
    (s : TopologyState) (v : Nat)
    (hreach : (of_numa_parse_memory_nodes memblk_rc MAX_NUMNODES nid0 pre s).1 = 0)
    (hdecl : np.props.numa_node_id = .Value v)
    (hbad : MAX_NUMNODES ≤ v)
    (hreg : np.props.reg ≠ []) :
    (of_numa_parse_memory_nodes memblk_rc MAX_NUMNODES nid0 (pre ++ np :: post) s).1
        = -EINVAL ∧
      (of_numa_parse_memory_nodes memblk_rc MAX_NUMNODES nid0 (pre ++ np :: post)
        s).2.memblk_calls =
        (of_numa_parse_memory_nodes memblk_rc MAX_NUMNODES nid0 pre s).2.memblk_calls ∧
      (of_numa_parse_memory_nodes memblk_rc MAX_NUMNODES nid0 (pre ++ np :: post)
        s).2.memblks =
        (of_numa_parse_memory_nodes memblk_rc MAX_NUMNODES nid0 pre s).2.memblks := by
  simp only [of_numa_parse_memory_nodes] at hreach ⊢
  obtain ⟨nid2, happ⟩ :=
    memory_nodes_loop_append memblk_rc MAX_NUMNODES pre (np :: post) nid0 s hreach
  rw [happ, memory_nodes_loop_bad_id memblk_rc MAX_NUMNODES np post nid2 _ v hdecl hbad]
  exact ⟨rfl, rfl, rfl⟩

/-- The amended C18 with `MAX_NUMNODES` 4 on a valid node followed by a node
with id 7 and two address ranges: only the first node's range is passed to
the registry. -/
theorem memory_nodes_bad_id_no_commit_witness :
    (of_numa_parse_memory_nodes (fun _ _ => 0) 4 0
        ([.root ⟨.Value 0, [(0, 4096)], none⟩] ++
          .root ⟨.Value 7, [(4096, 4096), (8192, 4096)], none⟩ :: [])
        TopologyState.empty).1 = -EINVAL ∧
      (of_numa_parse_memory_nodes (fun _ _ => 0) 4 0
        ([.root ⟨.Value 0, [(0, 4096)], none⟩] ++
          .root ⟨.Value 7, [(4096, 4096), (8192, 4096)], none⟩ :: [])
        TopologyState.empty).2.memblk_calls = [⟨0, 0, 4096⟩] := by
  have h := memory_nodes_bad_id_no_commit (fun _ _ => 0) 4 0
    [.root ⟨.Value 0, [(0, 4096)], none⟩] []
    (.root ⟨.Value 7, [(4096, 4096), (8192, 4096)], none⟩) TopologyState.empty 7 rfl rfl
    (by decide) (by simp [device_node.props])
  refine ⟨h.1, ?_⟩
  rw [h.2.1]
  decide

/-! ## C19: memory nodes without the property are skipped -/

/-- C19: memory nodes with no "numa-node-id" property are skipped entirely:
for every tree, `of_numa_parse_memory_nodes` returns the same code and ends in
the same state, hence commits the same sequence of ranges, as on the tree with
those nodes removed, whatever address ranges the removed nodes have. -/
theorem memory_nodes_absent_skipped (memblk_rc : List MemoryRange → MemoryRange → Int)
    (MAX_NUMNODES : Nat) (mems : List device_node) :
    ∀ (nid0 : Nat) (s : TopologyState),
      of_numa_parse_memory_nodes memblk_rc MAX_NUMNODES nid0 mems s =
        of_numa_parse_memory_nodes memblk_rc MAX_NUMNODES nid0 (declaring_nodes mems) s := by
  simp only [of_numa_parse_memory_nodes]
  induction mems with
  | nil => intro nid s; rfl
  | cons np rest ih =>
    intro nid s
    by_cases habs : np.props.numa_node_id = .Absent
    · have hf : declaring_nodes (np :: rest) = declaring_nodes rest := by
        simp [declaring_nodes, habs]
      have hread : of_property_read_u32 np nid = (-EINVAL, nid) := by
        simp [of_property_read_u32, habs]
      rw [hf, memory_nodes_loop_cons, hread]
      simp only [if_true]
      exact ih nid s
    · have hf : declaring_nodes (np :: rest) = np :: declaring_nodes rest := by
        simp [declaring_nodes, habs]
      have hne := of_property_read_u32_present np nid habs
      rw [hf, memory_nodes_loop_cons memblk_rc MAX_NUMNODES np rest,
        memory_nodes_loop_cons memblk_rc MAX_NUMNODES np (declaring_nodes rest)]
      simp only [if_neg hne]
      generalize add_memblk_loop memblk_rc (of_property_read_u32 np nid).2 (resources np) 0
        (if (of_property_read_u32 np nid).2 ≥ MAX_NUMNODES then -EINVAL
         else (of_property_read_u32 np nid).1) s = out
      obtain ⟨i, r2, s2⟩ := out
      simp only
      by_cases hbad : i = 0 ∨ r2 ≠ 0
      · simp only [if_pos hbad]
      · simp only [if_neg hbad]
        exact ih _ s2

/-! ## Shared lemmas: the trace of commit attempts -/

theorem call_codes_length (rc : List MemoryRange → MemoryRange → Int)
    (calls : List MemoryRange) :
    ∀ reg, (call_codes rc reg calls).length = calls.length := by
  induction calls with
  | nil => intro reg; rfl
  | cons c rest ih => intro reg; simp [call_codes, ih]

/-- The codes of a sequence of attempts whose first part is accepted. -/
theorem call_codes_append_ok (rc : List MemoryRange → MemoryRange → Int)
    (ok rest : List MemoryRange) :
    ∀ reg, (∀ c ∈ call_codes rc reg ok, c = 0) →
      call_codes rc reg (ok ++ rest) =
        call_codes rc reg ok ++ call_codes rc (reg ++ ok) rest := by
  induction ok with
  | nil => intro reg _; simp [call_codes]
  | cons x ok ih =>
    intro reg h
    have hx : rc reg x = 0 := h _ (by simp [call_codes])
    have hrest : ∀ c ∈ call_codes rc (reg ++ [x]) ok, c = 0 := by
      intro c hc
      apply h
      simp only [call_codes, hx, if_true, List.mem_cons]
      exact Or.inr hc
    have hi := ih (reg ++ [x]) hrest
    rw [List.append_assoc, List.singleton_append] at hi
    simp only [List.cons_append, call_codes, hx, if_true]
    exact congrArg (List.cons 0) hi

theorem commits_all_ok_refl (rc : List MemoryRange → MemoryRange → Int) (s : TopologyState) :
    commits_all_ok rc s s :=
  ⟨[], by simp, by simp, by simp [call_codes]⟩

theorem commits_all_ok_trans (rc : List MemoryRange → MemoryRange → Int)
    (s s1 s2 : TopologyState) (h1 : commits_all_ok rc s s1) (h2 : commits_all_ok rc s1 s2) :
    commits_all_ok rc s s2 := by
  obtain ⟨c1, hc1, hm1, hz1⟩ := h1
  obtain ⟨c2, hc2, hm2, hz2⟩ := h2
  refine ⟨c1 ++ c2, ?_, ?_, ?_⟩
  · rw [hc2, hc1, List.append_assoc]
  · rw [hm2, hm1, List.append_assoc]
  · intro c hc
    rw [call_codes_append_ok rc c1 c2 s.memblks hz1, List.mem_append] at hc
    rcases hc with h | h
    · exact hz1 c h
    · rw [← hm1] at h
      exact hz2 c h

theorem commits_all_ok_fail (rc : List MemoryRange → MemoryRange → Int)
    (s s1 s2 : TopologyState) (r : Int) (h1 : commits_all_ok rc s s1)
    (h2 : commits_fail_last rc s1 r s2) : commits_fail_last rc s r s2 := by
  obtain ⟨c1, hc1, hm1, hz1⟩ := h1
  obtain ⟨ok, bad, hc2, hm2, hz2, hbad, hr⟩ := h2
  refine ⟨c1 ++ ok, bad, ?_, ?_, ?_, ?_, hr⟩
  · rw [hc2, hc1, List.append_assoc, List.append_assoc]
  · rw [hm2, hm1, List.append_assoc]
  · intro c hc
    rw [call_codes_append_ok rc c1 ok s.memblks hz1, List.mem_append] at hc
    rcases hc with h | h
    · exact hz1 c h
    · rw [← hm1] at h
      exact hz2 c h
  · rw [← List.append_assoc, ← hm1]
    exact hbad

/-- The inner loop either has every commit accepted and ends with `r = 0`, or
ends right after the first commit that the registry refuses, with its code. -/
theorem add_memblk_loop_trace (rc : List MemoryRange → MemoryRange → Int) (nid : Nat)
    (rs : List resource) :
    ∀ (i : Nat) (s : TopologyState),
      ((add_memblk_loop rc nid rs i 0 s).2.1 = 0 ∧
          commits_all_ok rc s (add_memblk_loop rc nid rs i 0 s).2.2) ∨
        commits_fail_last rc s (add_memblk_loop rc nid rs i 0 s).2.1
          (add_memblk_loop rc nid rs i 0 s).2.2 := by
  induction rs with
  | nil => intro i s; exact Or.inl ⟨rfl, commits_all_ok_refl rc s⟩
  | cons x rest ih =>
    intro i s
    by_cases hc : rc s.memblks ⟨nid, x.start, (x.end_ + 1) % U64_MOD⟩ = 0
    · have hstep : add_memblk_loop rc nid (x :: rest) i 0 s =
          add_memblk_loop rc nid rest (i + 1) 0
            { s with memblks := s.memblks ++ [⟨nid, x.start, (x.end_ + 1) % U64_MOD⟩],
                     memblk_calls :=
                       s.memblk_calls ++ [⟨nid, x.start, (x.end_ + 1) % U64_MOD⟩] } := by
        simp [add_memblk_loop, numa_add_memblk, hc]
      rw [hstep]
      have hone : commits_all_ok rc s
          { s with memblks := s.memblks ++ [⟨nid, x.start, (x.end_ + 1) % U64_MOD⟩],
                   memblk_calls :=
                     s.memblk_calls ++ [⟨nid, x.start, (x.end_ + 1) % U64_MOD⟩] } :=
        ⟨[⟨nid, x.start, (x.end_ + 1) % U64_MOD⟩], rfl, rfl, by simp [call_codes, hc]⟩
      rcases ih (i + 1) _ with ⟨h0, hok⟩ | hfail
      · exact Or.inl ⟨h0, commits_all_ok_trans rc _ _ _ hone hok⟩
      · exact Or.inr (commits_all_ok_fail rc _ _ _ _ hone hfail)
    · have hstep : add_memblk_loop rc nid (x :: rest) i 0 s =
          (i + 1, rc s.memblks ⟨nid, x.start, (x.end_ + 1) % U64_MOD⟩,
            { s with memblk_calls :=
                s.memblk_calls ++ [⟨nid, x.start, (x.end_ + 1) % U64_MOD⟩] }) := by
        simp only [add_memblk_loop, numa_add_memblk, hc, ne_eq, not_true_eq_false, if_false]
        exact add_memblk_loop_stops rc nid rest (i + 1) _ _ hc
      rw [hstep]
      exact Or.inr ⟨[], ⟨nid, x.start, (x.end_ + 1) % U64_MOD⟩, by simp, by simp,
        by simp [call_codes], by simp, hc⟩

/-- The memory scan either has every commit accepted, or ends right after the
first commit that the registry refuses and returns its code. -/
theorem memory_nodes_loop_trace (rc : List MemoryRange → MemoryRange → Int) (MAX : Nat)
    (mems : List device_node) :
    ∀ (nid : Nat) (s : TopologyState),
      commits_all_ok rc s (memory_nodes_loop rc MAX mems nid s).2 ∨
        commits_fail_last rc s (memory_nodes_loop rc MAX mems nid s).1
          (memory_nodes_loop rc MAX mems nid s).2 := by
  induction mems with
  | nil => intro nid s; exact Or.inl (commits_all_ok_refl rc s)
  | cons np rest ih =>
    intro nid s
    rw [memory_nodes_loop_cons]
    generalize of_property_read_u32 np nid = rd
    obtain ⟨r, nid1⟩ := rd
    simp only
    by_cases hr : r = -EINVAL
    · simp only [if_pos hr]
      exact ih _ _
    · simp only [if_neg hr]
      by_cases hr0 : (if nid1 ≥ MAX then -EINVAL else r) = 0
      · rw [hr0]
        have ht := add_memblk_loop_trace rc nid1 (resources np) 0 s
        generalize add_memblk_loop rc nid1 (resources np) 0 0 s = out at ht ⊢
        obtain ⟨i, r2, s2⟩ := out
        simp only at ht ⊢
        by_cases hbad : i = 0 ∨ r2 ≠ 0
        · simp only [if_pos hbad]
          rcases ht with ⟨_, hok⟩ | hfail
          · exact Or.inl hok
          · have hne : r2 ≠ 0 := hfail.choose_spec.choose_spec.2.2.2.2
            simp only [hne, ne_eq, not_false_eq_true, if_true]
            exact Or.inr hfail
        · simp only [if_neg hbad]
          have hr2 : r2 = 0 := by
            by_contra h
            exact hbad (Or.inr h)
          rcases ht with ⟨_, hok⟩ | hfail
          · rcases ih nid1 s2 with h | h
            · exact Or.inl (commits_all_ok_trans rc _ _ _ hok h)
            · exact Or.inr (commits_all_ok_fail rc _ _ _ _ hok h)
          · exact absurd hr2 hfail.choose_spec.choose_spec.2.2.2.2
      · rw [add_memblk_loop_stops rc nid1 (resources np) 0 _ s hr0]
        simp only [true_or, if_true]
        exact Or.inl (commits_all_ok_refl rc s)

/-- In a list of zeros followed by one code, a nonzero entry is the last one. -/
theorem zeros_then_code (z : List Int) (r : Int) :
    (∀ c ∈ z, c = 0) → ∀ (pre : List Int) (e : Int) (post : List Int),
      z ++ [r] = pre ++ e :: post → e ≠ 0 → post = [] ∧ r = e := by
  induction z with
  | nil =>
    intro _ pre e post h _
    cases pre with
    | nil =>
      simp only [List.nil_append, List.cons.injEq] at h
      exact ⟨h.2.symm, h.1⟩
    | cons p pre =>
      simp only [List.nil_append, List.cons_append, List.cons.injEq] at h
      have := h.2
      simp at this
  | cons a z ih =>
    intro hz pre e post h he
    cases pre with
    | nil =>
      simp only [List.cons_append, List.nil_append, List.cons.injEq] at h
      exact absurd (h.1 ▸ hz a (List.mem_cons_self _ _)) he
    | cons p pre =>
      simp only [List.cons_append, List.cons.injEq] at h
      exact ih (fun c hc => hz c (List.mem_cons_of_mem _ hc)) pre e post h.2 he

theorem new_calls_append (s out : TopologyState) (calls : List MemoryRange)
    (h : out.memblk_calls = s.memblk_calls ++ calls) : new_calls s out = calls := by
  simp [new_calls, h]

/-! ## C20: a failing registry commit ends the scan -/

/-- C20: for every tree, take the commit attempts that
`of_numa_parse_memory_nodes` makes, in order, with the codes the registry
returns for them. If an attempt returns a code `e` other than 0, it is the last
attempt of the scan (no further commit is attempted, neither for the remaining
ranges of that node nor for later nodes) and the scan returns `e`. -/
theorem memory_nodes_commit_failure_stops
    (memblk_rc : List MemoryRange → MemoryRange → Int) (MAX_NUMNODES nid0 : Nat)
    (mems : List device_node) (s : TopologyState) :
    (of_numa_parse_memory_nodes memblk_rc MAX_NUMNODES nid0 mems s).2.memblk_calls =
        s.memblk_calls ++
          new_calls s (of_numa_parse_memory_nodes memblk_rc MAX_NUMNODES nid0 mems s).2 ∧
      (call_codes memblk_rc s.memblks
          (new_calls s (of_numa_parse_memory_nodes memblk_rc MAX_NUMNODES nid0 mems
            s).2)).length =
        (new_calls s (of_numa_parse_memory_nodes memblk_rc MAX_NUMNODES nid0 mems s).2).length ∧
      (∀ (pre : List Int) (e : Int) (post : List Int),
        call_codes memblk_rc s.memblks
            (new_calls s (of_numa_parse_memory_nodes memblk_rc MAX_NUMNODES nid0 mems s).2) =
          pre ++ e :: post →
        e ≠ 0 →
        post = [] ∧ (of_numa_parse_memory_nodes memblk_rc MAX_NUMNODES nid0 mems s).1 = e) := by
  simp only [of_numa_parse_memory_nodes]
  refine ⟨?_, call_codes_length _ _ _, ?_⟩
  · rcases memory_nodes_loop_trace memblk_rc MAX_NUMNODES mems nid0 s with
      ⟨calls, hc, _, _⟩ | ⟨ok, bad, hc, _, _, _, _⟩
    · rw [new_calls_append _ _ _ hc]
      exact hc
    · rw [new_calls_append _ _ _ hc]
      exact hc
  · intro pre e post hcodes he
    rcases memory_nodes_loop_trace memblk_rc MAX_NUMNODES mems nid0 s with
      ⟨calls, hc, _, hz⟩ | ⟨ok, bad, hc, _, hz, hbad, hr⟩
    · rw [new_calls_append _ _ _ hc] at hcodes
      have hmem : e ∈ call_codes memblk_rc s.memblks calls := by
        rw [hcodes]
        simp
      exact absurd (hz e hmem) he
    · rw [new_calls_append _ _ _ hc, call_codes_append_ok memblk_rc ok [bad] s.memblks hz]
        at hcodes
      simp only [call_codes, hbad] at hcodes
      exact zeros_then_code _ _ hz pre e post hcodes he

/-- The claim C20 on a registry that refuses the range starting at 4096 with
the code -12: the second range of the first node is refused, the scan returns
-12, and neither the third range of that node nor the range of the second node
is attempted. -/
theorem memory_nodes_commit_failure_stops_witness :
    (of_numa_parse_memory_nodes (fun _ rng => if rng.start = 4096 then -12 else 0) 4 0
        [.root ⟨.Value 0, [(0, 4096), (4096, 4096), (8192, 4096)], none⟩,
         .root ⟨.Value 1, [(16384, 4096)], none⟩] TopologyState.empty).1 = -12 ∧
      (of_numa_parse_memory_nodes (fun _ rng => if rng.start = 4096 then -12 else 0) 4 0
        [.root ⟨.Value 0, [(0, 4096), (4096, 4096), (8192, 4096)], none⟩,
         .root ⟨.Value 1, [(16384, 4096)], none⟩] TopologyState.empty).2.memblk_calls =
        [⟨0, 0, 4096⟩, ⟨0, 4096, 8192⟩] :=
  ⟨((memory_nodes_commit_failure_stops (fun _ rng => if rng.start = 4096 then -12 else 0) 4 0
      [.root ⟨.Value 0, [(0, 4096), (4096, 4096), (8192, 4096)], none⟩,
       .root ⟨.Value 1, [(16384, 4096)], none⟩] TopologyState.empty).2.2
      [0] (-12) [] (by decide) (by decide)).2,
   by decide⟩

end OfNuma
